import Mathlib

/-!
Verification of the jetSpan routing and grid-assignment engine.

This file is a shallow embedding of the core of the repository:

* `scripts/dijkstra_router.py` — flight-graph construction
  (`FlightGraph._build_graph`), the bounded-stop multi-source Dijkstra
  (`DijkstraRouter.run`), the circuity check (`_check_circuity`), and the
  time estimators (`estimate_flight_minutes`, `estimate_ground_minutes`).
* `scripts/precompute-isochrone.py` — the two-stage road-table sanitiser
  inside `load_osrm_ground_data` (stage 1: haversine-fallback stripping,
  stage 2: ocean-snap stripping) and the per-cell evaluator
  (`query_cell_fast` with `osrm_ground_time`).

Modelling conventions:

* Python floats are modelled as `ℚ`.  Python's `round` (round half to
  even) is modelled exactly by `pround`.
* The geometry (the `haversine` / `haversine_km` great-circle functions
  and the external H3 grid library) enters the embedded code only through
  the numeric values it produces, so it is passed in as an explicit
  oracle (`hav`, `hav_km`, `dist`, `H3Model`).  Both source files define
  the identical spherical haversine formula; every concrete instance used
  below is realisable by actual coordinates (for example coincident
  points give distance 0, and points along one meridian give distances
  proportional to the latitude differences).
* Python dicts are association lists (`alookup` / `aupdate` mirror
  `d.get(k)` / `d[k] = v`, preserving insertion order), so that every
  definition is executable and witnesses evaluate by `decide`.
-/

/-- Lookup in an association list, mirroring Python `d.get(k)`. -/
def alookup {α β : Type} [DecidableEq α] : List (α × β) → α → Option β
  | [], _ => none
  | (k, v) :: rest, a => if a = k then some v else alookup rest a

/-- Update in an association list, mirroring Python `d[k] = v`: the first
binding of `k` is replaced in place, otherwise the binding is appended. -/
def aupdate {α β : Type} [DecidableEq α] : List (α × β) → α → β → List (α × β)
  | [], a, b => [(a, b)]
  | (k, v) :: rest, a, b => if a = k then (k, b) :: rest else (k, v) :: aupdate rest a b

theorem mem_aupdate {α β : Type} [DecidableEq α] {l : List (α × β)} {a : α} {b : β}
    {pr : α × β} (h : pr ∈ aupdate l a b) : pr = (a, b) ∨ pr ∈ l := by
  induction l with
  | nil => exact Or.inl (by simpa [aupdate] using h)
  | cons hd tl ih =>
    obtain ⟨k, v⟩ := hd
    by_cases hak : a = k
    · subst hak
      simp only [aupdate, if_true, eq_self_iff_true, List.mem_cons] at h
      rcases h with h | h
      · exact Or.inl (by simp [h])
      · exact Or.inr (List.mem_cons_of_mem _ h)
    · simp only [aupdate, if_neg hak, List.mem_cons] at h
      rcases h with h | h
      · exact Or.inr (by simp [h])
      · rcases ih h with h' | h'
        · exact Or.inl h'
        · exact Or.inr (List.mem_cons_of_mem _ h')

theorem alookup_aupdate_self {α β : Type} [DecidableEq α] (l : List (α × β)) (a : α) (b : β) :
    alookup (aupdate l a b) a = some b := by
  induction l with
  | nil => simp [aupdate, alookup]
  | cons hd tl ih =>
    obtain ⟨k, v⟩ := hd
    by_cases hak : a = k
    · subst hak; simp [aupdate, alookup]
    · simp [aupdate, alookup, hak, ih]

theorem alookup_aupdate_ne {α β : Type} [DecidableEq α] (l : List (α × β)) (a a' : α) (b : β)
    (h : a' ≠ a) : alookup (aupdate l a b) a' = alookup l a' := by
  induction l with
  | nil => simp [aupdate, alookup, h]
  | cons hd tl ih =>
    obtain ⟨k, v⟩ := hd
    by_cases hak : a = k
    · subst hak; simp [aupdate, alookup, h]
    · by_cases ha'k : a' = k
      · subst ha'k; simp [aupdate, alookup, hak]
      · simp [aupdate, alookup, hak, ha'k, ih]

theorem alookup_isSome_aupdate {α β : Type} [DecidableEq α] (l : List (α × β)) (a a' : α) (b : β)
    (h : (alookup l a').isSome) : (alookup (aupdate l a b) a').isSome := by
  by_cases haa : a' = a
  · subst haa; simp [alookup_aupdate_self]
  · rwa [alookup_aupdate_ne l a a' b haa]

theorem alookup_mem {α β : Type} [DecidableEq α] {l : List (α × β)} {a : α} {b : β}
    (h : alookup l a = some b) : (a, b) ∈ l := by
  induction l with
  | nil => simp [alookup] at h
  | cons hd tl ih =>
    obtain ⟨k, v⟩ := hd
    by_cases hak : a = k
    · subst hak
      simp only [alookup, if_true, eq_self_iff_true, Option.some.injEq] at h
      simp [h]
    · simp only [alookup, if_neg hak] at h
      exact List.mem_cons_of_mem _ (ih h)

/-- Python's built-in `round` on exact rationals: round half to even. -/
def pround (q : ℚ) : ℤ :=
  if q - ⌊q⌋ < 1/2 then ⌊q⌋
  else if 1/2 < q - ⌊q⌋ then ⌊q⌋ + 1
  else if ⌊q⌋ % 2 = 0 then ⌊q⌋ else ⌊q⌋ + 1

theorem pround_le (q : ℚ) : (pround q : ℚ) ≤ q + 1/2 := by
  have h1 : (⌊q⌋ : ℚ) ≤ q := Int.floor_le q
  have h2 : q < ⌊q⌋ + 1 := Int.lt_floor_add_one q
  unfold pround
  split_ifs with hlt hgt hev
  · push_cast; linarith
  · push_cast; linarith
  · push_cast; linarith
  · push_cast; linarith

theorem le_pround (q : ℚ) : q - 1/2 ≤ (pround q : ℚ) := by
  have h1 : (⌊q⌋ : ℚ) ≤ q := Int.floor_le q
  have h2 : q < ⌊q⌋ + 1 := Int.lt_floor_add_one q
  unfold pround
  split_ifs with hlt hgt hev
  · push_cast; linarith
  · push_cast; linarith
  · push_cast; linarith
  · push_cast; linarith

/-- `estimate_flight_minutes` from `dijkstra_router.py`: piecewise-linear
flight-time estimate from great-circle distance. -/
def estimate_flight_minutes (dist_km : ℚ) : ℤ :=
  if dist_km < 500 then pround (dist_km / 400 * 60 + 30)
  else if dist_km < 1500 then pround (dist_km / 550 * 60 + 25)
  else if dist_km < 4000 then pround (dist_km / 700 * 60 + 25)
  else if dist_km < 8000 then pround (dist_km / 800 * 60 + 25)
  else pround (dist_km / 850 * 60 + 30)

/-- `estimate_ground_minutes` (shared by both scripts, default 40 km/h). -/
def estimate_ground_minutes (dist_km : ℚ) : ℤ :=
  pround (dist_km / 40 * 60)

theorem flight_lb (d : ℚ) (hd : 0 ≤ d) :
    6 * d / 85 + 49/2 ≤ (estimate_flight_minutes d : ℚ) := by
  unfold estimate_flight_minutes
  split_ifs with h1 h2 h3 h4
  · have := le_pround (d / 400 * 60 + 30); linarith
  · have := le_pround (d / 550 * 60 + 25); linarith
  · have := le_pround (d / 700 * 60 + 25); linarith
  · have := le_pround (d / 800 * 60 + 25); linarith
  · have := le_pround (d / 850 * 60 + 30); linarith

theorem flight_ub (d : ℚ) (hd : 0 ≤ d) :
    (estimate_flight_minutes d : ℚ) ≤ 6 * d / 85 + 173/2 := by
  unfold estimate_flight_minutes
  split_ifs with h1 h2 h3 h4
  · have := pround_le (d / 400 * 60 + 30); linarith
  · have := pround_le (d / 550 * 60 + 25); linarith
  · have := pround_le (d / 700 * 60 + 25); linarith
  · have := pround_le (d / 800 * 60 + 25); linarith
  · have := pround_le (d / 850 * 60 + 30); linarith

/-- Airport catalogue entry (`data/airports.json`): only the fields the
embedded code reads are kept. -/
structure Airport where
  lat : ℚ
  lng : ℚ
  country : String
deriving DecidableEq, Repr

/-- `AirportResult` dataclass from `dijkstra_router.py`. -/
structure AirportResult where
  total_time : ℤ
  stops : ℤ
  path : List String
  origin_airport : String
deriving DecidableEq, Repr

/-- Oracle for the external H3 grid library: cell identities are opaque
tokens (`ℕ` here).  Only the two operations `query_cell_fast` calls are
modelled. -/
structure H3Model where
  latlng_to_cell : ℚ → ℚ → ℕ → ℕ
  grid_disk : ℕ → ℕ → List ℕ

/-- Fixed state of the cell evaluator `query_cell_fast` in
`precompute-isochrone.py`: the H3 oracle, the `haversine_km` oracle
(argument order lat1, lon1, lat2, lon2 as in the source), the spatial
index, the catalogue, the origin configuration (`coords` is a
(lng, lat) pair, `airports` the access list with ground times), the
sanitised road tables and the origin road table. -/
structure QueryEnv where
  h3 : H3Model
  hav_km : ℚ → ℚ → ℚ → ℚ → ℚ
  spatial_index : List (ℕ × List (String × ℚ × ℚ × AirportResult))
  airports : List (String × Airport)
  origin_coords : ℚ × ℚ
  origin_access : List (String × ℤ)
  osrm_data : List (String × List (ℕ × ℤ))
  origin_ground : List (ℕ × ℤ)

/-- Result of `osrm_ground_time`: `-1` in the source becomes `noData`,
`None` becomes `unreachable`, an entry becomes `time m`. -/
inductive OsrmLookup where
  | noData : OsrmLookup
  | unreachable : OsrmLookup
  | time : ℤ → OsrmLookup
deriving DecidableEq, Repr

/-- `osrm_ground_time` from `precompute-isochrone.py`. -/
def osrm_ground_time (env : QueryEnv) (code : String) (lat lng : ℚ) : OsrmLookup :=
  match alookup env.osrm_data code with
  | none => OsrmLookup.noData
  | some apt_data =>
    match alookup apt_data (env.h3.latlng_to_cell lat lng 6) with
    | none => OsrmLookup.unreachable
    | some minutes => OsrmLookup.time minutes

/-- MAX_GROUND_KM from `precompute-isochrone.py`. -/
def MAX_GROUND_KM : ℚ := 400

/-- OSRM_CRAWL_RADIUS_KM from `precompute-isochrone.py`. -/
def OSRM_CRAWL_RADIUS_KM : ℚ := 200

/-- Arrival overhead computed inside the candidate loop of
`query_cell_fast`: 60 if the origin-access country differs from the
destination-airport country, else 30 (missing catalogue entries give
country `""`). -/
def arrivalOf (env : QueryEnv) (code : String) (result : AirportResult) : ℤ :=
  if ((alookup env.airports result.origin_airport).map Airport.country).getD ""
      ≠ ((alookup env.airports code).map Airport.country).getD ""
  then 60 else 30

/-- One iteration of the candidate loop of `query_cell_fast`: `none`
means the candidate is skipped (`continue` in the source); otherwise the
candidate total, the arrival overhead, the ground-from minutes and the
OSRM flag are produced. -/
def candEval (env : QueryEnv) (lat lng : ℚ) (cand : String × ℚ × ℚ × AirportResult) :
    Option (ℤ × ℤ × ℤ × Bool) :=
  let code := cand.1
  let apt_lat := cand.2.1
  let apt_lng := cand.2.2.1
  let result := cand.2.2.2
  let dist_km := env.hav_km lat lng apt_lat apt_lng
  if MAX_GROUND_KM < dist_km then none
  else
    match osrm_ground_time env code lat lng with
    | OsrmLookup.noData =>
      some (result.total_time + estimate_ground_minutes dist_km + arrivalOf env code result,
            arrivalOf env code result, estimate_ground_minutes dist_km, false)
    | OsrmLookup.unreachable =>
      -- source distinguishes `dist_km ≤ OSRM_CRAWL_RADIUS_KM` (water) from the
      -- beyond-radius case, but both arms `continue`
      if dist_km ≤ OSRM_CRAWL_RADIUS_KM then none else none
    | OsrmLookup.time m =>
      some (result.total_time + m + arrivalOf env code result,
            arrivalOf env code result, m, true)

/-- Compact route-information dictionary built by `query_cell_fast`. -/
structure RouteInf where
  origin_airport : String
  dest_airport : String
  is_direct : Bool
  stops : ℤ
  path : List String
  ground_to : ℤ
  overhead : ℤ
  flight : ℤ
  connections : ℤ
  arrival : ℤ
  ground_from : ℤ
  osrm : Bool
deriving DecidableEq, Repr

/-- The flight-route dictionary recorded when a candidate improves the
best total (`best_info` in `query_cell_fast`). -/
def mkFlightInfo (env : QueryEnv) (code : String) (result : AirportResult)
    (arrival ground_from : ℤ) (used_osrm : Bool) : RouteInf :=
  let ground_to :=
    ((env.origin_access.find? (fun a => a.1 = result.origin_airport)).map Prod.snd).getD 0
  let connection_cost := result.stops * (90 + 30)
  let flights_only := result.total_time - ground_to - 90 - connection_cost
  { origin_airport := result.origin_airport
    dest_airport := code
    is_direct := decide (result.stops = 0)
    stops := result.stops
    path := result.path
    ground_to := ground_to
    overhead := 90
    flight := max 0 flights_only
    connections := connection_cost
    arrival := arrival
    ground_from := ground_from
    osrm := used_osrm }

/-- The drive-only dictionary emitted by `query_cell_fast`. -/
def driveRecord (t : ℤ) (used_osrm : Bool) : RouteInf :=
  { origin_airport := "drive"
    dest_airport := "drive"
    is_direct := true
    stops := -1
    path := ["drive"]
    ground_to := t
    overhead := 0
    flight := 0
    connections := 0
    arrival := 0
    ground_from := 0
    osrm := used_osrm }

/-- Candidate-scan phase of `query_cell_fast`: fold over the airports in
the ring-3 disk of spatial-index buckets, tracking the best total
(`best_total` starts at infinity, so the first valid candidate always
wins; later ones only on a strict improvement). -/
def bestCandidate (env : QueryEnv) (lat lng : ℚ) : Option (ℤ × RouteInf) :=
  let center_bucket := env.h3.latlng_to_cell lat lng 2
  let nearby_buckets := env.h3.grid_disk center_bucket 3
  let cands := nearby_buckets.flatMap (fun b => (alookup env.spatial_index b).getD [])
  cands.foldl
    (fun acc cand =>
      match candEval env lat lng cand with
      | none => acc
      | some (total, arrival, ground_from, used_osrm) =>
        match acc with
        | none => some (total, mkFlightInfo env cand.1 cand.2.2.2 arrival ground_from used_osrm)
        | some (best_total, best_info) =>
          if total < best_total then
            some (total, mkFlightInfo env cand.1 cand.2.2.2 arrival ground_from used_osrm)
          else some (best_total, best_info))
    none

/-- `query_cell_fast` from `precompute-isochrone.py`: candidate scan,
then the early `return None, None` when no flight candidate was valid,
then the drive-only comparison. -/
def query_cell_fast (env : QueryEnv) (lat lng : ℚ) : Option (ℤ × RouteInf) :=
  match bestCandidate env lat lng with
  | none => none
  | some (best_total, best_info) =>
    let drive_dist := env.hav_km lat lng env.origin_coords.2 env.origin_coords.1
    if drive_dist < MAX_GROUND_KM then
      match alookup env.origin_ground (env.h3.latlng_to_cell lat lng 6) with
      | some origin_osrm =>
        if origin_osrm < best_total then some (origin_osrm, driveRecord origin_osrm true)
        else some (best_total, best_info)
      | none =>
        if env.origin_ground.isEmpty then
          if estimate_ground_minutes drive_dist < best_total then
            some (estimate_ground_minutes drive_dist,
                  driveRecord (estimate_ground_minutes drive_dist) false)
          else some (best_total, best_info)
        else some (best_total, best_info)
    else some (best_total, best_info)

/-- Trivial H3 oracle used for concrete instances: everything lives in
one cell (realised by coincident coordinates). -/
def h3triv : H3Model :=
  { latlng_to_cell := fun _ _ _ => 0
    grid_disk := fun c _ => [c] }

/-- Concrete evaluator instance: no reachable airports, but the origin
road table has a driving time for the queried cell (all points
coincident, so every distance is 0). -/
def cexQueryEnv1 : QueryEnv :=
  { h3 := h3triv
    hav_km := fun _ _ _ _ => 0
    spatial_index := []
    airports := []
    origin_coords := (0, 0)
    origin_access := []
    osrm_data := []
    origin_ground := [(0, 100)] }

/-- C1 counterexample: the queried cell has no valid flight option, the
drive-only option is valid (distance 0 < 400 km and the origin road
table contains the cell with 100 minutes), yet `query_cell_fast`
returns absent — the claimed drive-only fallback record is not
produced. -/
theorem C1_counterexample :
    query_cell_fast cexQueryEnv1 0 0 = none ∧
    cexQueryEnv1.hav_km 0 0 cexQueryEnv1.origin_coords.2 cexQueryEnv1.origin_coords.1
      < MAX_GROUND_KM ∧
    alookup cexQueryEnv1.origin_ground (cexQueryEnv1.h3.latlng_to_cell 0 0 6) = some 100 := by
  refine ⟨by decide, by decide, by decide⟩

/-- C1 (amended): whenever the candidate scan produces no valid flight
option, `query_cell_fast` returns absent — the drive-only comparison is
only reached when some flight candidate is valid. -/
theorem C1_no_flight_no_output (env : QueryEnv) (lat lng : ℚ)
    (h : bestCandidate env lat lng = none) :
    query_cell_fast env lat lng = none := by
  unfold query_cell_fast
  rw [h]

/-- C1 witness: the amended theorem applied to the concrete instance. -/
theorem C1_witness :
    bestCandidate cexQueryEnv1 0 0 = none ∧ query_cell_fast cexQueryEnv1 0 0 = none :=
  ⟨by decide, C1_no_flight_no_output cexQueryEnv1 0 0 (by decide)⟩

/-- Concrete evaluator instance with one flight candidate whose total
(100 airside + 50 OSRM ground + 30 domestic arrival = 180) exactly ties
the origin-road-table drive time (180). -/
def resAAA : AirportResult :=
  { total_time := 100
    stops := 0
    path := ["BRS", "AAA"]
    origin_airport := "BRS" }

/-- Evaluator environment for the C2 tie counterexample. -/
def cexQueryEnv2 : QueryEnv :=
  { h3 := h3triv
    hav_km := fun _ _ _ _ => 0
    spatial_index := [(0, [("AAA", 0, 0, resAAA)])]
    airports := [("AAA", ⟨0, 0, "GB"⟩), ("BRS", ⟨0, 0, "GB"⟩)]
    origin_coords := (0, 0)
    origin_access := [("BRS", 25)]
    osrm_data := [("AAA", [(0, 50)])]
    origin_ground := [(0, 180)] }

/-- C2 counterexample: flight total and drive-only total are both 180,
and `query_cell_fast` returns the flight record (destination `AAA`),
not the drive-only record — on equal totals the tie goes to flight. -/
theorem C2_counterexample :
    bestCandidate cexQueryEnv2 0 0 = some (180, mkFlightInfo cexQueryEnv2 "AAA" resAAA 30 50 true) ∧
    alookup cexQueryEnv2.origin_ground (cexQueryEnv2.h3.latlng_to_cell 0 0 6) = some 180 ∧
    (query_cell_fast cexQueryEnv2 0 0).map (fun p => (p.1, p.2.dest_airport))
      = some (180, "AAA") := by
  refine ⟨by decide, by decide, by decide⟩

/-- The drive-only option of `query_cell_fast` for a cell within
400 km of the origin, as the source computes it: the origin-road-table
entry when the table covers the cell (OSRM flag true); the
straight-line fallback when no origin road table is loaded at all
(flag false); absent when the table exists but misses the cell
(water/unreachable — drive-only skipped). -/
def driveOption (env : QueryEnv) (lat lng : ℚ) : Option (ℤ × Bool) :=
  match alookup env.origin_ground (env.h3.latlng_to_cell lat lng 6) with
  | some origin_osrm => some (origin_osrm, true)
  | none =>
    if env.origin_ground.isEmpty then
      some (estimate_ground_minutes
        (env.hav_km lat lng env.origin_coords.2 env.origin_coords.1), false)
    else none

/-- C2 (amended): when a flight candidate is valid and the drive-only
option is valid by either mechanism — an origin-road-table entry for
the cell, or the straight-line fallback when no origin road table is
loaded at all — and the cell is within 400 km of the origin, the
drive-only record is returned exactly when its total is strictly
smaller than the flight total; on equal totals the flight record is
returned. -/
theorem C2_tie_goes_to_flight (env : QueryEnv) (lat lng : ℚ) (bt : ℤ) (bi : RouteInf)
    (dv : ℤ) (b : Bool)
    (hb : bestCandidate env lat lng = some (bt, bi))
    (hd : env.hav_km lat lng env.origin_coords.2 env.origin_coords.1 < MAX_GROUND_KM)
    (ho : driveOption env lat lng = some (dv, b)) :
    query_cell_fast env lat lng =
      if dv < bt then some (dv, driveRecord dv b) else some (bt, bi) := by
  unfold query_cell_fast
  rw [hb]
  unfold driveOption at ho
  cases hog : alookup env.origin_ground (env.h3.latlng_to_cell lat lng 6) with
  | some origin_osrm =>
    rw [hog] at ho
    dsimp only at ho
    obtain ⟨rfl, rfl⟩ := Prod.mk.inj (Option.some.inj ho)
    simp only [hog, if_pos hd]
  | none =>
    rw [hog] at ho
    dsimp only at ho
    split_ifs at ho with hemp
    obtain ⟨rfl, rfl⟩ := Prod.mk.inj (Option.some.inj ho)
    simp only [hog, if_pos hd, hemp, if_true]

/-- Flight-tie instance with no origin road table at all: the
straight-line fallback drive time (150 minutes over 100 km at 40 km/h)
exactly ties the flight total (100 airside + 20 OSRM ground + 30
domestic arrival = 150). -/
def cexQueryEnv2b : QueryEnv :=
  { h3 := h3triv
    hav_km := fun _ _ _ _ => 100
    spatial_index := [(0, [("AAA", 0, 0, resAAA)])]
    airports := [("AAA", ⟨0, 0, "GB"⟩), ("BRS", ⟨0, 0, "GB"⟩)]
    origin_coords := (0, 0)
    origin_access := [("BRS", 25)]
    osrm_data := [("AAA", [(0, 20)])]
    origin_ground := [] }

/-- C2 witness: the amended theorem applied to both tie instances —
drive-only via the origin road table, and drive-only via the
straight-line fallback with no origin road table loaded. -/
theorem C2_witness :
    (query_cell_fast cexQueryEnv2 0 0 =
      if (180 : ℤ) < 180 then some (180, driveRecord 180 true)
      else some (180, mkFlightInfo cexQueryEnv2 "AAA" resAAA 30 50 true)) ∧
    (query_cell_fast cexQueryEnv2b 0 0 =
      if (150 : ℤ) < 150 then some (150, driveRecord 150 false)
      else some (150, mkFlightInfo cexQueryEnv2b "AAA" resAAA 30 20 true)) :=
  ⟨C2_tie_goes_to_flight cexQueryEnv2 0 0 180
      (mkFlightInfo cexQueryEnv2 "AAA" resAAA 30 50 true) 180 true
      (by decide) (by decide) (by decide),
   C2_tie_goes_to_flight cexQueryEnv2b 0 0 150
      (mkFlightInfo cexQueryEnv2b "AAA" resAAA 30 20 true) 150 false
      (by decide) (by decide)
      (by norm_num [driveOption, cexQueryEnv2b, h3triv, alookup, estimate_ground_minutes,
        pround])⟩

/-- C3: the ground-from source rule of the candidate loop.  For a
candidate within 400 km: if the airport has no road table at all the
straight-line fallback is used; if the road table has an entry for the
cell that entry is used; if the airport has a road table but the cell is
missing the candidate is skipped (no radius condition — both the
within-200 km and beyond-200 km arms of the source skip). -/
theorem C3_ground_from_rule (env : QueryEnv) (lat lng : ℚ)
    (cand : String × ℚ × ℚ × AirportResult)
    (hdist : ¬ MAX_GROUND_KM < env.hav_km lat lng cand.2.1 cand.2.2.1) :
    (alookup env.osrm_data cand.1 = none →
      candEval env lat lng cand =
        some (cand.2.2.2.total_time
                + estimate_ground_minutes (env.hav_km lat lng cand.2.1 cand.2.2.1)
                + arrivalOf env cand.1 cand.2.2.2,
              arrivalOf env cand.1 cand.2.2.2,
              estimate_ground_minutes (env.hav_km lat lng cand.2.1 cand.2.2.1), false)) ∧
    (∀ tbl m, alookup env.osrm_data cand.1 = some tbl →
      alookup tbl (env.h3.latlng_to_cell lat lng 6) = some m →
      candEval env lat lng cand =
        some (cand.2.2.2.total_time + m + arrivalOf env cand.1 cand.2.2.2,
              arrivalOf env cand.1 cand.2.2.2, m, true)) ∧
    (∀ tbl, alookup env.osrm_data cand.1 = some tbl →
      alookup tbl (env.h3.latlng_to_cell lat lng 6) = none →
      candEval env lat lng cand = none) := by
  refine ⟨fun hnone => ?_, fun tbl m htbl hcell => ?_, fun tbl htbl hcell => ?_⟩
  · simp [candEval, osrm_ground_time, hdist, hnone]
  · simp [candEval, osrm_ground_time, hdist, htbl, hcell]
  · simp [candEval, osrm_ground_time, hdist, htbl, hcell]

/-- Router result used in the C3 witness instance. -/
def resX : AirportResult :=
  { total_time := 200
    stops := 0
    path := ["X", "A"]
    origin_airport := "X" }

/-- Evaluator environment for the C3 witness: airport `A` has a road
table covering the cell, `B` has no road table, `C` has a road table
that misses the cell. -/
def witQueryEnv3 : QueryEnv :=
  { h3 := h3triv
    hav_km := fun _ _ _ _ => 10
    spatial_index := [(0, [("A", 0, 0, resX), ("B", 0, 0, resX), ("C", 0, 0, resX)])]
    airports := []
    origin_coords := (0, 0)
    origin_access := []
    osrm_data := [("A", [(0, 7)]), ("C", [(5, 9)])]
    origin_ground := [] }

/-- C3 witness: the three arms of the rule at concrete candidates. -/
theorem C3_witness :
    candEval witQueryEnv3 0 0 ("A", 0, 0, resX)
      = some (resX.total_time + 7 + arrivalOf witQueryEnv3 "A" resX,
              arrivalOf witQueryEnv3 "A" resX, 7, true) ∧
    candEval witQueryEnv3 0 0 ("B", 0, 0, resX)
      = some (resX.total_time
                + estimate_ground_minutes (witQueryEnv3.hav_km 0 0 0 0)
                + arrivalOf witQueryEnv3 "B" resX,
              arrivalOf witQueryEnv3 "B" resX,
              estimate_ground_minutes (witQueryEnv3.hav_km 0 0 0 0), false) ∧
    candEval witQueryEnv3 0 0 ("C", 0, 0, resX) = none :=
  ⟨(C3_ground_from_rule witQueryEnv3 0 0 ("A", 0, 0, resX) (by decide)).2.1
      [(0, 7)] 7 (by decide) (by decide),
   (C3_ground_from_rule witQueryEnv3 0 0 ("B", 0, 0, resX) (by decide)).1 (by decide),
   (C3_ground_from_rule witQueryEnv3 0 0 ("C", 0, 0, resX) (by decide)).2.2
      [(5, 9)] (by decide) (by decide)⟩

/-- Stage 1 of the road-table sanitiser in `load_osrm_ground_data`:
strip legacy haversine-fallback entries.  `dist` is the centre-to-centre
great-circle distance of a cell from the airport (the composite of
`h3.cell_to_latlng` and `haversine_km` in the source).  An entry is
deleted iff its distance is at least 5 km and its minutes equal
`round(dist / 30 * 60)`. -/
def stage1 (dist : ℕ → ℚ) (cells : List (ℕ × ℤ)) : List (ℕ × ℤ) :=
  cells.filter (fun p => decide (dist p.1 < 5) || decide (p.2 ≠ pround (dist p.1 / 30 * 60)))

/-- Per-cell data assembled by stage 2 of the sanitiser
(`cell_data` in the source: hex, distance, minutes, implied speed). -/
structure CellInfo where
  cell : ℕ
  d : ℚ
  m : ℤ
  speed : ℚ
deriving DecidableEq, Repr

/-- The `cell_data` list of stage 2: cells with positive minutes and
distance at least 0.5 km from the airport, with implied average speed
`dist / (minutes / 60)`. -/
def cellData (dist : ℕ → ℚ) : List (ℕ × ℤ) → List CellInfo
  | [] => []
  | (h, m) :: rest =>
    if m ≤ 0 then cellData dist rest
    else if dist h < 1/2 then cellData dist rest
    else ⟨h, dist h, m, dist h / ((m : ℚ) / 60)⟩ :: cellData dist rest

/-- Keys removed by the hard speed cap (> 130 km/h average). -/
def capKeys (cd : List CellInfo) : List ℕ :=
  (cd.filter (fun q => decide (130 < q.speed))).map CellInfo.cell

/-- `remaining` in the source: cell data whose key survived the cap. -/
def remainingOf (cd : List CellInfo) : List CellInfo :=
  cd.filter (fun q => decide (q.cell ∉ capKeys cd))

/-- Distances of the surviving cells with on-island speeds (< 30 km/h). -/
def slowDs (rem : List CellInfo) : List ℚ :=
  (rem.filter (fun q => decide (q.speed < 30))).map CellInfo.d

/-- Python `max` on a nonempty list (0 as an unused default). -/
def lmax : List ℚ → ℚ
  | [] => 0
  | x :: xs => xs.foldl max x

/-- `island_radius = max(slow) * 1.2 if slow else 15` from the source. -/
def islandRadius (rem : List CellInfo) : ℚ :=
  if slowDs rem = [] then 15 else lmax (slowDs rem) * (6/5)

/-- Keys removed by the island filter: surviving cells farther than the
inferred island radius. -/
def farKeys (rem : List CellInfo) : List ℕ :=
  (rem.filter (fun q => decide (islandRadius rem < q.d))).map CellInfo.cell

/-- Left fold summation, mirroring Python `sum`. -/
def sumQ (l : List ℚ) : ℚ :=
  l.foldl (fun a b => a + b) 0

/-- Decision `r < 0.6` of the source, computed without square roots:
with `num = n·Σdt − Σd·Σt` and `den2 = (n·Σd² − (Σd)²)·(n·Σt² − (Σt)²)`
the source sets `r = num / sqrt den2` when `sqrt den2 > 0` and `r = 0`
otherwise, so `r < 0.6` iff `den2 ≤ 0`, or `num < 0`, or
`25·num² < 9·den2` (see `pearsonLow_spec` below). -/
def pearsonLow (rem : List CellInfo) : Bool :=
  let ds := rem.map CellInfo.d
  let ts := rem.map (fun q => (q.m : ℚ))
  let n : ℚ := rem.length
  let num := n * sumQ (List.zipWith (fun a b => a * b) ds ts) - sumQ ds * sumQ ts
  let den2 := (n * sumQ (ds.map (fun x => x * x)) - sumQ ds * sumQ ds) *
              (n * sumQ (ts.map (fun x => x * x)) - sumQ ts * sumQ ts)
  if den2 ≤ 0 then true
  else decide (num < 0) || decide (25 * (num * num) < 9 * den2)

/-- Correctness of the square-root-free `r < 0.6` test: over the reals,
for a positive `den2`, `num / sqrt den2 < 3/5` iff `num < 0` or
`25·num² < 9·den2`. -/
theorem pearsonLow_spec (num den2 : ℚ) (hden : 0 < den2) :
    ((num : ℝ) / Real.sqrt den2 < 3/5) ↔ (num < 0 ∨ 25 * (num * num) < 9 * den2) := by
  have hden' : (0 : ℝ) < (den2 : ℚ) := by exact_mod_cast hden
  have hs : (0 : ℝ) < Real.sqrt den2 := Real.sqrt_pos.mpr hden'
  constructor
  · intro h
    by_cases hn : num < 0
    · exact Or.inl hn
    · right
      have hn' : (0 : ℝ) ≤ (num : ℚ) := by exact_mod_cast not_lt.mp hn
      have h5 : (num : ℝ) < 3/5 * Real.sqrt den2 := by
        rw [div_lt_iff hs] at h; linarith
      have hsq : ((num : ℝ)) ^ 2 < (3/5 * Real.sqrt den2) ^ 2 := by
        apply sq_lt_sq' _ h5
        nlinarith [Real.sqrt_nonneg (den2 : ℝ)]
      have hden2 : (Real.sqrt den2) ^ 2 = (den2 : ℝ) :=
        Real.sq_sqrt (by exact_mod_cast hden.le)
      have : ((num : ℝ)) ^ 2 < 9/25 * den2 := by
        rw [mul_pow] at hsq
        rw [hden2] at hsq
        nlinarith
      have : (25 : ℝ) * ((num : ℝ) * (num : ℝ)) < 9 * den2 := by nlinarith
      exact_mod_cast this
  · intro h
    rcases h with hn | hsq
    · have : ((num : ℚ) : ℝ) < 0 := by exact_mod_cast hn
      calc (num : ℝ) / Real.sqrt den2 < 0 := div_neg_of_neg_of_pos this hs
        _ < 3/5 := by norm_num
    · rw [div_lt_iff hs]
      have hden2 : (Real.sqrt den2) ^ 2 = (den2 : ℝ) :=
        Real.sq_sqrt (by exact_mod_cast hden.le)
      have h9 : (25 : ℝ) * ((num : ℝ) * (num : ℝ)) < 9 * den2 := by exact_mod_cast hsq
      nlinarith [Real.sqrt_nonneg (den2 : ℝ), hden2, hs]

/-- The `to_remove` set of stage 2 (as a key list): the speed-capped
keys always, plus — when more than 20 cells survive the cap and their
distance/time correlation is below 0.6 — the keys beyond the inferred
island radius. -/
def removeKeys (cd : List CellInfo) : List ℕ :=
  if 20 < (remainingOf cd).length then
    if pearsonLow (remainingOf cd) then capKeys cd ++ farKeys (remainingOf cd)
    else capKeys cd
  else capKeys cd

/-- Stage 2 of the road-table sanitiser in `load_osrm_ground_data`:
strip OSRM ocean-snap artefacts.  Airports with fewer than 5 qualifying
cells are left untouched; otherwise every cell whose key is in
`removeKeys` is deleted. -/
def stage2 (dist : ℕ → ℚ) (cells : List (ℕ × ℤ)) : List (ℕ × ℤ) :=
  if (cellData dist cells).length < 5 then cells
  else cells.filter (fun p => decide (p.1 ∉ removeKeys (cellData dist cells)))

theorem mem_capKeys {cd : List CellInfo} {k : ℕ} :
    k ∈ capKeys cd ↔ ∃ q ∈ cd, q.cell = k ∧ 130 < q.speed := by
  simp only [capKeys, List.mem_map, List.mem_filter, decide_eq_true_eq]
  constructor
  · rintro ⟨q, ⟨hq, hs⟩, rfl⟩; exact ⟨q, hq, rfl, hs⟩
  · rintro ⟨q, hq, rfl, hs⟩; exact ⟨q, ⟨hq, hs⟩, rfl⟩

theorem mem_remainingOf {cd : List CellInfo} {q : CellInfo} :
    q ∈ remainingOf cd ↔ q ∈ cd ∧ q.cell ∉ capKeys cd := by
  simp [remainingOf, List.mem_filter]

theorem mem_slowDs {rem : List CellInfo} {y : ℚ} :
    y ∈ slowDs rem ↔ ∃ q ∈ rem, q.speed < 30 ∧ q.d = y := by
  simp only [slowDs, List.mem_map, List.mem_filter, decide_eq_true_eq]
  constructor
  · rintro ⟨q, ⟨hq, hs⟩, rfl⟩; exact ⟨q, hq, hs, rfl⟩
  · rintro ⟨q, hq, hs, rfl⟩; exact ⟨q, ⟨hq, hs⟩, rfl⟩

theorem mem_farKeys {rem : List CellInfo} {k : ℕ} :
    k ∈ farKeys rem ↔ ∃ q ∈ rem, q.cell = k ∧ islandRadius rem < q.d := by
  simp only [farKeys, List.mem_map, List.mem_filter, decide_eq_true_eq]
  constructor
  · rintro ⟨q, ⟨hq, hs⟩, rfl⟩; exact ⟨q, hq, rfl, hs⟩
  · rintro ⟨q, hq, rfl, hs⟩; exact ⟨q, ⟨hq, hs⟩, rfl⟩

theorem capKeys_sub_removeKeys {cd : List CellInfo} {k : ℕ} (h : k ∈ capKeys cd) :
    k ∈ removeKeys cd := by
  unfold removeKeys
  split_ifs with h1 h2
  · exact List.mem_append_left _ h
  · exact h
  · exact h

theorem cellData_cons_skip1 (dist : ℕ → ℚ) (h : ℕ) (m : ℤ) (rest : List (ℕ × ℤ))
    (h1 : m ≤ 0) : cellData dist ((h, m) :: rest) = cellData dist rest := by
  simp only [cellData, if_pos h1]

theorem cellData_cons_skip2 (dist : ℕ → ℚ) (h : ℕ) (m : ℤ) (rest : List (ℕ × ℤ))
    (h1 : ¬ m ≤ 0) (h2 : dist h < 1/2) :
    cellData dist ((h, m) :: rest) = cellData dist rest := by
  simp only [cellData, if_neg h1, if_pos h2]

theorem cellData_cons_keep (dist : ℕ → ℚ) (h : ℕ) (m : ℤ) (rest : List (ℕ × ℤ))
    (h1 : ¬ m ≤ 0) (h2 : ¬ dist h < 1/2) :
    cellData dist ((h, m) :: rest)
      = ⟨h, dist h, m, dist h / ((m : ℚ) / 60)⟩ :: cellData dist rest := by
  simp only [cellData, if_neg h1, if_neg h2]

theorem mem_cellData_of {dist : ℕ → ℚ} {cells : List (ℕ × ℤ)} {h : ℕ} {m : ℤ}
    (hmem : (h, m) ∈ cells) (hm : ¬ m ≤ 0) (hd : ¬ dist h < 1/2) :
    (⟨h, dist h, m, dist h / ((m : ℚ) / 60)⟩ : CellInfo) ∈ cellData dist cells := by
  induction cells with
  | nil => simp at hmem
  | cons hd' tl ih =>
    obtain ⟨h', m'⟩ := hd'
    rcases List.mem_cons.mp hmem with heq | htl
    · have hh : h' = h := (congrArg Prod.fst heq).symm
      have hm2 : m' = m := (congrArg Prod.snd heq).symm
      subst hh; subst hm2
      rw [cellData_cons_keep _ _ _ _ hm hd]
      exact List.mem_cons_self _ _
    · simp only [cellData]
      split_ifs with h1 h2
      · exact ih htl
      · exact ih htl
      · exact List.mem_cons_of_mem _ (ih htl)

theorem cellData_props {dist : ℕ → ℚ} {cells : List (ℕ × ℤ)} {q : CellInfo}
    (hq : q ∈ cellData dist cells) : q.d = dist q.cell ∧ ¬ q.d < 1/2 := by
  induction cells with
  | nil => simp [cellData] at hq
  | cons hd tl ih =>
    obtain ⟨h', m'⟩ := hd
    simp only [cellData] at hq
    split_ifs at hq with h1 h2
    · exact ih hq
    · exact ih hq
    · rcases List.mem_cons.mp hq with heq | htl
      · subst heq; exact ⟨rfl, h2⟩
      · exact ih htl

theorem cellData_filter (dist : ℕ → ℚ) (cells : List (ℕ × ℤ)) (R : List ℕ) :
    cellData dist (cells.filter (fun p => decide (p.1 ∉ R)))
      = (cellData dist cells).filter (fun q => decide (q.cell ∉ R)) := by
  induction cells with
  | nil => simp [cellData]
  | cons hd tl ih =>
    obtain ⟨h', m'⟩ := hd
    rw [List.filter_cons]
    by_cases h1 : m' ≤ 0
    · by_cases hR : h' ∈ R
      · rw [if_neg (by simp [hR]), ih, cellData_cons_skip1 _ _ _ _ h1]
      · rw [if_pos (by simp [hR]), cellData_cons_skip1 _ _ _ _ h1,
            cellData_cons_skip1 _ _ _ _ h1, ih]
    · by_cases h2 : dist h' < 1/2
      · by_cases hR : h' ∈ R
        · rw [if_neg (by simp [hR]), ih, cellData_cons_skip2 _ _ _ _ h1 h2]
        · rw [if_pos (by simp [hR]), cellData_cons_skip2 _ _ _ _ h1 h2,
              cellData_cons_skip2 _ _ _ _ h1 h2, ih]
      · by_cases hR : h' ∈ R
        · rw [if_neg (by simp [hR]), ih, cellData_cons_keep _ _ _ _ h1 h2,
              List.filter_cons, if_neg (by simp [hR])]
        · rw [if_pos (by simp [hR]), cellData_cons_keep _ _ _ _ h1 h2,
              cellData_cons_keep _ _ _ _ h1 h2, ih, List.filter_cons,
              if_pos (by simp [hR])]


theorem le_foldl_max_init (xs : List ℚ) (a : ℚ) : a ≤ xs.foldl max a := by
  induction xs generalizing a with
  | nil => simp
  | cons x xs ih => exact le_trans (le_max_left a x) (ih (max a x))

theorem le_foldl_max_mem {xs : List ℚ} {y : ℚ} (hy : y ∈ xs) (a : ℚ) :
    y ≤ xs.foldl max a := by
  induction xs generalizing a with
  | nil => simp at hy
  | cons x xs ih =>
    rcases List.mem_cons.mp hy with rfl | hy'
    · exact le_trans (le_max_right a y) (le_foldl_max_init xs (max a y))
    · exact ih hy' (max a x)

theorem foldl_max_mem (xs : List ℚ) (a : ℚ) : xs.foldl max a = a ∨ xs.foldl max a ∈ xs := by
  induction xs generalizing a with
  | nil => simp
  | cons x xs ih =>
    have hfold : (x :: xs).foldl max a = xs.foldl max (max a x) := rfl
    rcases ih (max a x) with h | h
    · rcases max_choice a x with hm | hm
      · left; rw [hfold, h, hm]
      · right; rw [hfold, h, hm]; exact List.mem_cons_self _ _
    · right; rw [hfold]; exact List.mem_cons_of_mem _ h

theorem lmax_mem {l : List ℚ} (h : l ≠ []) : lmax l ∈ l := by
  match l with
  | [] => exact absurd rfl h
  | x :: xs =>
    rcases foldl_max_mem xs x with h' | h'
    · simp [lmax, h']
    · exact List.mem_cons_of_mem _ (by simpa [lmax] using h')

theorem le_lmax {l : List ℚ} {y : ℚ} (hy : y ∈ l) : y ≤ lmax l := by
  match l with
  | [] => simp at hy
  | x :: xs =>
    rcases List.mem_cons.mp hy with rfl | hy'
    · exact le_foldl_max_init xs y
    · exact le_foldl_max_mem hy' x

theorem remainingOf_eq_self_of_cap_nil {cd : List CellInfo} (h : capKeys cd = []) :
    remainingOf cd = cd := by
  unfold remainingOf
  rw [h]
  simp
theorem removeKeys_stage2_empty (dist : ℕ → ℚ) (cells : List (ℕ × ℤ)) :
    ∀ k, k ∉ removeKeys (cellData dist
      (cells.filter (fun p => decide (p.1 ∉ removeKeys (cellData dist cells))))) := by
  intro k hk
  rw [cellData_filter] at hk
  set cd := cellData dist cells with hcd
  set cd2 := cd.filter (fun q => decide (q.cell ∉ removeKeys cd)) with hcd2def
  have hmem2 : ∀ q : CellInfo, q ∈ cd2 → q ∈ cd ∧ q.cell ∉ removeKeys cd := by
    intro q hq
    have := List.mem_filter.mp (hcd2def ▸ hq)
    exact ⟨this.1, by simpa using this.2⟩
  have hcap2 : ∀ k', k' ∉ capKeys cd2 := by
    intro k' hk'
    rcases mem_capKeys.mp hk' with ⟨q, hq, rfl, hs⟩
    rcases hmem2 q hq with ⟨hqcd, hqnR⟩
    exact hqnR (capKeys_sub_removeKeys (mem_capKeys.mpr ⟨q, hqcd, rfl, hs⟩))
  have hcap2nil : capKeys cd2 = [] := List.eq_nil_iff_forall_not_mem.mpr hcap2
  have hrem2 : remainingOf cd2 = cd2 := remainingOf_eq_self_of_cap_nil hcap2nil
  unfold removeKeys at hk
  rw [hrem2, hcap2nil] at hk
  split_ifs at hk with h20 hP
  · -- pass-2 island branch: hk : k ∈ [] ++ farKeys cd2
    simp only [List.nil_append] at hk
    rcases mem_farKeys.mp hk with ⟨q, hq, rfl, hfar⟩
    rcases hmem2 q hq with ⟨hqcd, hqnR⟩
    -- pass-1 case analysis
    by_cases h20p : 20 < (remainingOf cd).length
    · by_cases hPp : pearsonLow (remainingOf cd)
      · -- pass 1 took the island branch
        have hR : removeKeys cd = capKeys cd ++ farKeys (remainingOf cd) := by
          unfold removeKeys
          rw [if_pos h20p, if_pos hPp]
        have hq_rem : ∀ q' : CellInfo, q' ∈ cd → q'.cell ∉ removeKeys cd →
            q' ∈ remainingOf cd ∧ q'.cell ∉ farKeys (remainingOf cd) := by
          intro q' hq' hn
          rw [hR] at hn
          refine ⟨mem_remainingOf.mpr ⟨hq', fun hc => hn (List.mem_append_left _ hc)⟩,
                  fun hc => hn (List.mem_append_right _ hc)⟩
        have hrad : islandRadius cd2 = islandRadius (remainingOf cd) := by
          by_cases hslow : slowDs (remainingOf cd) = []
          · have hslow2 : slowDs cd2 = [] := by
              rw [List.eq_nil_iff_forall_not_mem]
              intro y hy
              rcases mem_slowDs.mp hy with ⟨q', hq', hs', rfl⟩
              rcases hmem2 q' hq' with ⟨hq'cd, hq'nR⟩
              rcases hq_rem q' hq'cd hq'nR with ⟨hq'rem, _⟩
              have : q'.d ∈ slowDs (remainingOf cd) := mem_slowDs.mpr ⟨q', hq'rem, hs', rfl⟩
              rw [hslow] at this
              simp at this
            simp [islandRadius, hslow, hslow2]
          · have hMmem := lmax_mem hslow
            rcases mem_slowDs.mp hMmem with ⟨qs, hqs_rem, hqs_slow, hqs_d⟩
            have hqscd : qs ∈ cd := (mem_remainingOf.mp hqs_rem).1
            have hprops := cellData_props (show qs ∈ cellData dist cells from hcd ▸ hqscd)
            have hrad1 : islandRadius (remainingOf cd)
                = lmax (slowDs (remainingOf cd)) * (6/5) := by
              rw [islandRadius, if_neg hslow]
            have hqs_nR : qs.cell ∉ removeKeys cd := by
              rw [hR]
              intro hin
              rcases List.mem_append.mp hin with hc | hf
              · exact (mem_remainingOf.mp hqs_rem).2 hc
              · rcases mem_farKeys.mp hf with ⟨q', hq'rem, hq'cell, hq'far⟩
                have hd1 : q'.d = dist q'.cell :=
                  (cellData_props (show q' ∈ cellData dist cells from
                    hcd ▸ (mem_remainingOf.mp hq'rem).1)).1
                have hd2 : qs.d = dist qs.cell := hprops.1
                rw [hq'cell] at hd1
                have hq'd : q'.d = lmax (slowDs (remainingOf cd)) := by
                  rw [hd1, ← hd2, hqs_d]
                rw [hrad1, hq'd] at hq'far
                have h12 : ¬ qs.d < 1/2 := hprops.2
                have hMpos : (0:ℚ) < lmax (slowDs (remainingOf cd)) := by
                  rw [← hqs_d]; linarith [not_lt.mp h12]
                nlinarith
            have hqs_cd2 : qs ∈ cd2 := by
              rw [hcd2def]
              exact List.mem_filter.mpr ⟨hqscd, by simpa using hqs_nR⟩
            have hM2mem : lmax (slowDs (remainingOf cd)) ∈ slowDs cd2 :=
              mem_slowDs.mpr ⟨qs, hqs_cd2, hqs_slow, hqs_d⟩
            have hslow2ne : slowDs cd2 ≠ [] := by
              intro hnil
              rw [hnil] at hM2mem
              simp at hM2mem
            have hub : ∀ y ∈ slowDs cd2, y ≤ lmax (slowDs (remainingOf cd)) := by
              intro y hy
              rcases mem_slowDs.mp hy with ⟨q', hq', hs', rfl⟩
              rcases hmem2 q' hq' with ⟨hq'cd, hq'nR⟩
              rcases hq_rem q' hq'cd hq'nR with ⟨hq'rem, _⟩
              exact le_lmax (mem_slowDs.mpr ⟨q', hq'rem, hs', rfl⟩)
            have hlm2 : lmax (slowDs cd2) = lmax (slowDs (remainingOf cd)) :=
              le_antisymm (hub _ (lmax_mem hslow2ne)) (le_lmax hM2mem)
            rw [islandRadius, if_neg hslow2ne, hlm2, hrad1]
        rcases hq_rem q hqcd hqnR with ⟨hq_remm, hq_nfar⟩
        rw [hrad] at hfar
        exact hq_nfar (mem_farKeys.mpr ⟨q, hq_remm, rfl, hfar⟩)
      · -- pass 1: high correlation, removeKeys cd = capKeys cd
        have hR : removeKeys cd = capKeys cd := by
          unfold removeKeys
          rw [if_pos h20p, if_neg hPp]
        have hcd2rem : cd2 = remainingOf cd := by
          rw [hcd2def, hR]; rfl
        rw [hcd2rem] at hP
        exact hPp hP
    · -- pass 1: not enough survivors, removeKeys cd = capKeys cd
      have hR : removeKeys cd = capKeys cd := by
        unfold removeKeys
        rw [if_neg h20p]
      have hcd2rem : cd2 = remainingOf cd := by
        rw [hcd2def, hR]; rfl
      rw [hcd2rem] at h20
      exact h20p h20
  · simp at hk
  · simp at hk

theorem stage2_idem (dist : ℕ → ℚ) (cells : List (ℕ × ℤ)) :
    stage2 dist (stage2 dist cells) = stage2 dist cells := by
  by_cases h5 : (cellData dist cells).length < 5
  · have e : stage2 dist cells = cells := by rw [stage2, if_pos h5]
    rw [e]
    exact e
  · have e : stage2 dist cells
        = cells.filter (fun p => decide (p.1 ∉ removeKeys (cellData dist cells))) := by
      rw [stage2, if_neg h5]
    rw [e]
    by_cases h5' : (cellData dist
        (cells.filter (fun p => decide (p.1 ∉ removeKeys (cellData dist cells))))).length < 5
    · rw [stage2, if_pos h5']
    · rw [stage2, if_neg h5']
      apply List.filter_eq_self.mpr
      intro p hp
      simp only [decide_eq_true_eq]
      exact fun hmem => removeKeys_stage2_empty dist cells p.1 hmem

theorem stage1_idem (dist : ℕ → ℚ) (cells : List (ℕ × ℤ)) :
    stage1 dist (stage1 dist cells) = stage1 dist cells := by
  unfold stage1
  rw [List.filter_filter]
  simp

/-- C8: both sanitiser stages are idempotent — re-running stage 1 or
stage 2 on its own output changes nothing. -/
theorem C8_sanitiser_idempotent (dist : ℕ → ℚ) (cells : List (ℕ × ℤ)) :
    stage1 dist (stage1 dist cells) = stage1 dist cells ∧
    stage2 dist (stage2 dist cells) = stage2 dist cells :=
  ⟨stage1_idem dist cells, stage2_idem dist cells⟩

/-- C7 counterexample: an airport table with a single entry whose
implied speed is 30000 km/h (distance 500 km in 1 minute) is left
untouched by stage 2, because the stage skips airports with fewer than
5 qualifying cells — the removal is not unconditional. -/
theorem C7_counterexample :
    stage2 (fun _ => 500) [(0, 1)] = [(0, 1)] ∧ (0 : ℤ) < 1 ∧
    (130 : ℚ) < 500 / ((1 : ℚ) / 60) := by
  refine ⟨by norm_num [stage2, cellData], by norm_num, by norm_num⟩

/-- C7 (amended): in stage 2, provided the airport has at least 5
qualifying cells (stored minutes > 0 and centre distance ≥ 0.5 km),
every stored cell with minutes > 0 whose implied average speed exceeds
130 km/h is removed. -/
theorem C7_speed_cap_removes (dist : ℕ → ℚ) (cells : List (ℕ × ℤ)) (h : ℕ) (m : ℤ)
    (h5 : ¬ (cellData dist cells).length < 5)
    (hmem : (h, m) ∈ cells) (hm : 0 < m)
    (hspeed : 130 < dist h / ((m : ℚ) / 60)) :
    h ∉ (stage2 dist cells).map Prod.fst := by
  have hm1 : (1 : ℚ) ≤ (m : ℚ) := by exact_mod_cast hm
  have hmpos : (0 : ℚ) < (m : ℚ) / 60 := by positivity
  have hd : 130 * ((m : ℚ) / 60) < dist h := (lt_div_iff hmpos).mp hspeed
  have hdge : ¬ dist h < 1/2 := by
    intro hlt
    nlinarith
  have hq := mem_cellData_of hmem (by omega) hdge
  have hcap : h ∈ capKeys (cellData dist cells) :=
    mem_capKeys.mpr ⟨_, hq, rfl, by simpa using hspeed⟩
  have hrem : h ∈ removeKeys (cellData dist cells) := capKeys_sub_removeKeys hcap
  rw [stage2, if_neg h5]
  intro hcontra
  rcases List.mem_map.mp hcontra with ⟨p, hpfil, hp1⟩
  rcases List.mem_filter.mp hpfil with ⟨_, hdec⟩
  rw [hp1] at hdec
  simp only [decide_eq_true_eq] at hdec
  exact hdec hrem

/-- Distance oracle for the C7 witness: cell token read as km. -/
def distWit : ℕ → ℚ := fun c => (c : ℚ)

/-- Road table for the C7 witness: five qualifying cells, the last one
implying 30000 km/h. -/
def cellsWit : List (ℕ × ℤ) := [(1, 10), (2, 10), (3, 10), (4, 10), (500, 1)]

/-- C7 witness: the amended speed-cap theorem at a concrete table. -/
theorem C7_witness :
    ¬ (cellData distWit cellsWit).length < 5 ∧ (500, 1) ∈ cellsWit ∧ (0 : ℤ) < 1 ∧
    (130 : ℚ) < distWit 500 / ((1 : ℚ) / 60) ∧
    500 ∉ (stage2 distWit cellsWit).map Prod.fst :=
  ⟨by norm_num [cellData, distWit, cellsWit], by decide, by decide,
   by norm_num [distWit],
   C7_speed_cap_removes distWit cellsWit 500 1 (by norm_num [cellData, distWit, cellsWit])
     (by decide) (by decide) (by norm_num [distWit])⟩

/-- Flight graph state built by `FlightGraph._build_graph`: the
`edges` dict keyed by (from, to) pairs and the `adjacency` dict from
code to neighbour list. -/
structure GraphData where
  edges : List ((String × String) × ℤ)
  adjacency : List (String × List (String × ℤ))
deriving DecidableEq, Repr

/-- `self.adjacency.setdefault(k, []).append(it)` pattern of the source:
extend the list bound at `k` in place, creating it when absent. -/
def adjAppend (adj : List (String × List (String × ℤ))) (k : String) (it : String × ℤ) :
    List (String × List (String × ℤ)) :=
  match alookup adj k with
  | none => adj ++ [(k, [it])]
  | some l => aupdate adj k (l ++ [it])

/-- Inner loop of the forward pass of `_build_graph`: process the
destination list of one route-table row (the row's origin is `origin`
with catalogue entry `po`). -/
def fwdOne (hav : ℚ → ℚ → ℚ → ℚ → ℚ) (airports : List (String × Airport)) (origin : String)
    (po : Airport) : GraphData → List String → GraphData
  | g, [] => g
  | g, dest :: ds =>
    match alookup airports dest with
    | none => fwdOne hav airports origin po g ds
    | some pd =>
      fwdOne hav airports origin po
        ⟨aupdate g.edges (origin, dest)
           (estimate_flight_minutes (hav po.lng po.lat pd.lng pd.lat)),
         adjAppend g.adjacency origin
           (dest, estimate_flight_minutes (hav po.lng po.lat pd.lng pd.lat))⟩ ds

/-- Forward pass of `_build_graph` over the route table. -/
def fwdPass (hav : ℚ → ℚ → ℚ → ℚ → ℚ) (airports : List (String × Airport)) :
    GraphData → List (String × List String) → GraphData
  | g, [] => g
  | g, (origin, dests) :: rest =>
    match alookup airports origin with
    | none => fwdPass hav airports g rest
    | some po => fwdPass hav airports (fwdOne hav airports origin po g dests) rest

/-- Inner loop of the reverse pass of `_build_graph`: add the mirror of
any forward edge whose reverse is missing, preserving the weight. -/
def revOne (origin : String) : GraphData → List String → GraphData
  | g, [] => g
  | g, dest :: ds =>
    match alookup g.edges (dest, origin) with
    | some _ => revOne origin g ds
    | none =>
      match alookup g.edges (origin, dest) with
      | none => revOne origin g ds
      | some ft =>
        revOne origin
          ⟨aupdate g.edges (dest, origin) ft, adjAppend g.adjacency dest (origin, ft)⟩ ds

/-- Reverse pass of `_build_graph` over the route table. -/
def revPass : GraphData → List (String × List String) → GraphData
  | g, [] => g
  | g, (origin, dests) :: rest => revPass (revOne origin g dests) rest

/-- `FlightGraph._build_graph`: forward pass then reverse pass, starting
from the empty graph. -/
def buildGraph (hav : ℚ → ℚ → ℚ → ℚ → ℚ) (routes : List (String × List String))
    (airports : List (String × Airport)) : GraphData :=
  revPass (fwdPass hav airports ⟨[], []⟩ routes) routes

theorem fwdOne_isSome (hav : ℚ → ℚ → ℚ → ℚ → ℚ) (airports : List (String × Airport))
    (origin : String) (po : Airport) (ds : List String) (g : GraphData)
    (k : String × String) (h : (alookup g.edges k).isSome) :
    (alookup (fwdOne hav airports origin po g ds).edges k).isSome := by
  induction ds generalizing g with
  | nil => exact h
  | cons dest ds ih =>
    simp only [fwdOne]
    cases hdest : alookup airports dest with
    | none => exact ih g h
    | some pd => exact ih _ (alookup_isSome_aupdate _ _ _ _ h)

theorem fwdPass_isSome (hav : ℚ → ℚ → ℚ → ℚ → ℚ) (airports : List (String × Airport))
    (routes : List (String × List String)) (g : GraphData)
    (k : String × String) (h : (alookup g.edges k).isSome) :
    (alookup (fwdPass hav airports g routes).edges k).isSome := by
  induction routes generalizing g with
  | nil => exact h
  | cons row rest ih =>
    obtain ⟨origin, dests⟩ := row
    simp only [fwdPass]
    cases horig : alookup airports origin with
    | none => exact ih g h
    | some po => exact ih _ (fwdOne_isSome hav airports origin po dests g k h)

theorem revOne_isSome (origin : String) (ds : List String) (g : GraphData)
    (k : String × String) (h : (alookup g.edges k).isSome) :
    (alookup (revOne origin g ds).edges k).isSome := by
  induction ds generalizing g with
  | nil => exact h
  | cons dest ds ih =>
    simp only [revOne]
    cases hrev : alookup g.edges (dest, origin) with
    | some _ => exact ih g h
    | none =>
      cases hfwd : alookup g.edges (origin, dest) with
      | none => exact ih g h
      | some ft => exact ih _ (alookup_isSome_aupdate _ _ _ _ h)

theorem revPass_isSome (routes : List (String × List String)) (g : GraphData)
    (k : String × String) (h : (alookup g.edges k).isSome) :
    (alookup (revPass g routes).edges k).isSome := by
  induction routes generalizing g with
  | nil => exact h
  | cons row rest ih =>
    obtain ⟨origin, dests⟩ := row
    simp only [revPass]
    exact ih _ (revOne_isSome origin dests g k h)

theorem fwdOne_writes (hav : ℚ → ℚ → ℚ → ℚ → ℚ) (airports : List (String × Airport))
    (origin : String) (po : Airport) (b : String) (pb : Airport)
    (hpb : alookup airports b = some pb) :
    ∀ (ds : List String) (g : GraphData), b ∈ ds →
      (alookup (fwdOne hav airports origin po g ds).edges (origin, b)).isSome := by
  intro ds
  induction ds with
  | nil => intro g hb; simp at hb
  | cons dest ds ih =>
    intro g hb
    rcases List.mem_cons.mp hb with rfl | hb'
    · simp only [fwdOne, hpb]
      by_cases hds : b ∈ ds
      · exact ih _ hds
      · apply fwdOne_isSome
        simp [alookup_aupdate_self]
    · simp only [fwdOne]
      cases hdest : alookup airports dest with
      | none => exact ih g hb'
      | some pd => exact ih _ hb'

theorem fwdPass_writes (hav : ℚ → ℚ → ℚ → ℚ → ℚ) (airports : List (String × Airport))
    (a b : String) (dsts : List String) (pa pb : Airport)
    (hb : b ∈ dsts)
    (hpa : alookup airports a = some pa) (hpb : alookup airports b = some pb) :
    ∀ (routes : List (String × List String)) (g : GraphData), (a, dsts) ∈ routes →
      (alookup (fwdPass hav airports g routes).edges (a, b)).isSome := by
  intro routes
  induction routes with
  | nil => intro g hroute; simp at hroute
  | cons row rest ih =>
    intro g hroute
    rcases List.mem_cons.mp hroute with heq | hrest
    · obtain ⟨origin, dests⟩ := row
      injection heq with h1 h2
      subst h1; subst h2
      simp only [fwdPass, hpa]
      exact fwdPass_isSome hav airports rest _ _
        (fwdOne_writes hav airports a pa b pb hpb dsts g hb)
    · obtain ⟨origin, dests⟩ := row
      simp only [fwdPass]
      cases horig : alookup airports origin with
      | none => exact ih g hrest
      | some po => exact ih _ hrest

theorem revOne_writes (origin b : String) :
    ∀ (ds : List String) (g : GraphData), b ∈ ds →
      (alookup g.edges (origin, b)).isSome →
      (alookup (revOne origin g ds).edges (b, origin)).isSome := by
  intro ds
  induction ds with
  | nil => intro g hb; simp at hb
  | cons dest ds ih =>
    intro g hb h
    rcases List.mem_cons.mp hb with rfl | hb'
    · simp only [revOne]
      cases hrev : alookup g.edges (b, origin) with
      | some w => exact revOne_isSome origin ds g _ (by simp [hrev])
      | none =>
        cases hfwd : alookup g.edges (origin, b) with
        | none => rw [hfwd] at h; simp at h
        | some ft =>
          apply revOne_isSome
          simp [alookup_aupdate_self]
    · simp only [revOne]
      cases hrev : alookup g.edges (dest, origin) with
      | some _ => exact ih g hb' h
      | none =>
        cases hfwd : alookup g.edges (origin, dest) with
        | none => exact ih g hb' h
        | some ft => exact ih _ hb' (alookup_isSome_aupdate _ _ _ _ h)

theorem revPass_writes (a b : String) (dsts : List String) (hb : b ∈ dsts) :
    ∀ (routes : List (String × List String)) (g : GraphData), (a, dsts) ∈ routes →
      (alookup g.edges (a, b)).isSome →
      (alookup (revPass g routes).edges (b, a)).isSome := by
  intro routes
  induction routes with
  | nil => intro g hroute; simp at hroute
  | cons row rest ih =>
    intro g hroute h
    rcases List.mem_cons.mp hroute with heq | hrest
    · obtain ⟨origin, dests⟩ := row
      injection heq with h1 h2
      subst h1; subst h2
      simp only [revPass]
      exact revPass_isSome rest _ _ (revOne_writes a b dsts g hb h)
    · obtain ⟨origin, dests⟩ := row
      simp only [revPass]
      exact ih _ hrest (revOne_isSome origin dests g _ h)

/-- Value invariant of the `edges` dict: every stored weight is the
flight-time estimate of the great-circle distance between its
endpoints' catalogue coordinates. -/
def EdgesVal (hav : ℚ → ℚ → ℚ → ℚ → ℚ) (airports : List (String × Airport))
    (g : GraphData) : Prop :=
  ∀ pr ∈ g.edges, ∃ pa pb : Airport,
    alookup airports pr.1.1 = some pa ∧ alookup airports pr.1.2 = some pb ∧
    pr.2 = estimate_flight_minutes (hav pa.lng pa.lat pb.lng pb.lat)

theorem EdgesVal_fwdOne (hav : ℚ → ℚ → ℚ → ℚ → ℚ) (airports : List (String × Airport))
    (origin : String) (po : Airport) (ds : List String) (g : GraphData)
    (hpo : alookup airports origin = some po)
    (hEV : EdgesVal hav airports g) :
    EdgesVal hav airports (fwdOne hav airports origin po g ds) := by
  induction ds generalizing g with
  | nil => exact hEV
  | cons dest ds ih =>
    simp only [fwdOne]
    cases hdest : alookup airports dest with
    | none => exact ih g hEV
    | some pd =>
      apply ih
      intro pr hpr
      rcases mem_aupdate hpr with rfl | hold
      · exact ⟨po, pd, hpo, hdest, rfl⟩
      · exact hEV pr hold

theorem EdgesVal_fwdPass (hav : ℚ → ℚ → ℚ → ℚ → ℚ) (airports : List (String × Airport))
    (routes : List (String × List String)) (g : GraphData)
    (hEV : EdgesVal hav airports g) :
    EdgesVal hav airports (fwdPass hav airports g routes) := by
  induction routes generalizing g with
  | nil => exact hEV
  | cons row rest ih =>
    obtain ⟨origin, dests⟩ := row
    simp only [fwdPass]
    cases horig : alookup airports origin with
    | none => exact ih g hEV
    | some po => exact ih _ (EdgesVal_fwdOne hav airports origin po dests g horig hEV)

theorem EdgesVal_revOne (hav : ℚ → ℚ → ℚ → ℚ → ℚ) (airports : List (String × Airport))
    (origin : String) (ds : List String) (g : GraphData)
    (hsym : ∀ x1 y1 x2 y2, hav x1 y1 x2 y2 = hav x2 y2 x1 y1)
    (hEV : EdgesVal hav airports g) :
    EdgesVal hav airports (revOne origin g ds) := by
  induction ds generalizing g with
  | nil => exact hEV
  | cons dest ds ih =>
    simp only [revOne]
    cases hrev : alookup g.edges (dest, origin) with
    | some _ => exact ih g hEV
    | none =>
      cases hfwd : alookup g.edges (origin, dest) with
      | none => exact ih g hEV
      | some ft =>
        apply ih
        intro pr hpr
        rcases mem_aupdate hpr with rfl | hold
        · rcases hEV _ (alookup_mem hfwd) with ⟨pa, pb, hpa, hpb, hval⟩
          exact ⟨pb, pa, hpb, hpa, by rw [hval, hsym]⟩
        · exact hEV pr hold

theorem EdgesVal_revPass (hav : ℚ → ℚ → ℚ → ℚ → ℚ) (airports : List (String × Airport))
    (routes : List (String × List String)) (g : GraphData)
    (hsym : ∀ x1 y1 x2 y2, hav x1 y1 x2 y2 = hav x2 y2 x1 y1)
    (hEV : EdgesVal hav airports g) :
    EdgesVal hav airports (revPass g routes) := by
  induction routes generalizing g with
  | nil => exact hEV
  | cons row rest ih =>
    obtain ⟨origin, dests⟩ := row
    simp only [revPass]
    exact ih _ (EdgesVal_revOne hav airports origin dests g hsym hEV)

/-- C9: flight-graph symmetry.  If the route table contains the edge
a→b and both codes are in the catalogue (codes absent from the
catalogue are ignored by the builder), then the built graph contains
both a→b and b→a with the same weight.  The haversine oracle is
symmetric, as the spherical haversine formula is. -/
theorem C9_flight_graph_symmetry (hav : ℚ → ℚ → ℚ → ℚ → ℚ)
    (routes : List (String × List String)) (airports : List (String × Airport))
    (a b : String) (dsts : List String) (pa pb : Airport)
    (hsym : ∀ x1 y1 x2 y2, hav x1 y1 x2 y2 = hav x2 y2 x1 y1)
    (hroute : (a, dsts) ∈ routes) (hb : b ∈ dsts)
    (hpa : alookup airports a = some pa) (hpb : alookup airports b = some pb) :
    ∃ w, alookup (buildGraph hav routes airports).edges (a, b) = some w ∧
         alookup (buildGraph hav routes airports).edges (b, a) = some w := by
  have hfwd : (alookup (fwdPass hav airports ⟨[], []⟩ routes).edges (a, b)).isSome :=
    fwdPass_writes hav airports a b dsts pa pb hb hpa hpb routes ⟨[], []⟩ hroute
  have hab : (alookup (buildGraph hav routes airports).edges (a, b)).isSome :=
    revPass_isSome routes _ _ hfwd
  have hba : (alookup (buildGraph hav routes airports).edges (b, a)).isSome :=
    revPass_writes a b dsts hb routes _ hroute hfwd
  rcases Option.isSome_iff_exists.mp hab with ⟨w1, hw1⟩
  rcases Option.isSome_iff_exists.mp hba with ⟨w2, hw2⟩
  have hEV : EdgesVal hav airports (buildGraph hav routes airports) :=
    EdgesVal_revPass hav airports routes _ hsym
      (EdgesVal_fwdPass hav airports routes _ (by intro pr hpr; simp at hpr))
  rcases hEV _ (alookup_mem hw1) with ⟨pa1, pb1, hpa1, hpb1, hval1⟩
  rcases hEV _ (alookup_mem hw2) with ⟨pa2, pb2, hpa2, hpb2, hval2⟩
  simp only at hpa1 hpb1 hpa2 hpb2 hval1 hval2
  rw [hpa] at hpa1 hpb2
  rw [hpb] at hpb1 hpa2
  obtain rfl := Option.some.inj hpa1
  obtain rfl := Option.some.inj hpb1
  obtain rfl := Option.some.inj hpa2
  obtain rfl := Option.some.inj hpb2
  refine ⟨w1, hw1, ?_⟩
  rw [hw2, hval1, hval2, hsym]

/-- Route table, catalogue and distance oracle for the C9 witness. -/
def routesWit : List (String × List String) := [("AAA", ["BBB"])]

/-- Catalogue for the C9 witness. -/
def airportsWit : List (String × Airport) :=
  [("AAA", ⟨0, 0, "GB"⟩), ("BBB", ⟨3, 0, "FR"⟩)]

/-- Constant (hence symmetric) distance oracle for the C9 witness. -/
def havWit : ℚ → ℚ → ℚ → ℚ → ℚ := fun _ _ _ _ => 300

/-- C9 witness: symmetry of the built graph on a concrete one-row route
table (the route table has only AAA→BBB; the reverse edge is added by
the builder). -/
theorem C9_witness :
    ("AAA", ["BBB"]) ∈ routesWit ∧ "BBB" ∈ ["BBB"] ∧
    (∃ w, alookup (buildGraph havWit routesWit airportsWit).edges ("AAA", "BBB") = some w ∧
          alookup (buildGraph havWit routesWit airportsWit).edges ("BBB", "AAA") = some w) :=
  ⟨by decide, by decide,
   C9_flight_graph_symmetry havWit routesWit airportsWit "AAA" "BBB" ["BBB"]
     ⟨0, 0, "GB"⟩ ⟨3, 0, "FR"⟩ (fun _ _ _ _ => rfl) (by decide) (by decide)
     (by decide) (by decide)⟩

/-- `PathState` dataclass from `dijkstra_router.py` (priority-queue
entry). -/
structure PathState where
  total_time : ℤ
  airport : String
  stops : ℤ
  path : List String
deriving DecidableEq, Repr

/-- Fixed state of `DijkstraRouter`: adjacency of the flight graph, the
catalogue, the origin-city coordinates (`coords`, a (lng, lat) pair),
the origin access-airport list with ground times, and the `haversine`
oracle of `dijkstra_router.py` (argument order lng1, lat1, lng2, lat2
as in that source file). -/
structure RouterEnv where
  graph_adj : List (String × List (String × ℤ))
  airports : List (String × Airport)
  origin_coords : ℚ × ℚ
  origin_airports : List (String × ℤ)
  hav : ℚ → ℚ → ℚ → ℚ → ℚ

/-- ORIGIN_OVERHEAD cost parameter of `DijkstraRouter`. -/
def ORIGIN_OVERHEAD : ℤ := 90

/-- CONNECTION_TIME cost parameter of `DijkstraRouter`. -/
def CONNECTION_TIME : ℤ := 90

/-- STOP_PENALTY cost parameter of `DijkstraRouter`. -/
def STOP_PENALTY : ℤ := 30

/-- MAX_STOPS constraint of `DijkstraRouter`. -/
def MAX_STOPS : ℤ := 2

/-- MAX_CIRCUITY constraint of `DijkstraRouter` (1.8). -/
def MAX_CIRCUITY : ℚ := 9/5

/-- MIN_FLY_DISTANCE constraint of `DijkstraRouter` (km). -/
def MIN_FLY_DISTANCE : ℚ := 150

/-- `FlightGraph.get_neighbors`. -/
def get_neighbors (env : RouterEnv) (airport : String) : List (String × ℤ) :=
  (alookup env.graph_adj airport).getD []

/-- `DijkstraRouter._calc_path_distance`: total flight distance of a
path, skipping leg endpoints missing from the catalogue. -/
def calc_path_distance (env : RouterEnv) : List String → ℚ
  | a :: b :: rest =>
    (match alookup env.airports a, alookup env.airports b with
     | some x, some y => env.hav x.lng x.lat y.lng y.lat
     | _, _ => 0) + calc_path_distance env (b :: rest)
  | _ => 0

/-- `DijkstraRouter._check_circuity`: `True` when the route passes the
minimum-fly-distance and circuity checks (missing catalogue entries
auto-pass). -/
def check_circuity (env : RouterEnv) (dest_code : String) (path : List String) : Bool :=
  match alookup env.airports dest_code with
  | none => true
  | some apt =>
    if env.hav env.origin_coords.1 env.origin_coords.2 apt.lng apt.lat < MIN_FLY_DISTANCE
    then false
    else if 0 < env.hav env.origin_coords.1 env.origin_coords.2 apt.lng apt.lat ∧
      MAX_CIRCUITY < calc_path_distance env path
        / env.hav env.origin_coords.1 env.origin_coords.2 apt.lng apt.lat
    then false
    else true

/-- The `AirportResult` recorded for a settled state
(`state.path[0] if state.path else ''`). -/
def mkResult (s : PathState) : AirportResult :=
  { total_time := s.total_time
    stops := s.stops
    path := s.path
    origin_airport := match s.path with | [] => "" | h :: _ => h }

/-- Mutable state of `DijkstraRouter.run`: the priority queue, the
`visited` dict keyed by (airport, stops), and the `best_times` dict. -/
structure RouterState where
  pq : List PathState
  visited : List ((String × ℤ) × ℤ)
  best : List (String × AirportResult)
deriving Repr

/-- `heapq.heappop`: remove a state of minimal `total_time` (leftmost on
ties; the heap's internal tie order is not observable through the
claims proved here). -/
def popMin : List PathState → Option (PathState × List PathState)
  | [] => none
  | s :: rest =>
    match popMin rest with
    | none => some (s, [])
    | some (m, rest') =>
      if s.total_time ≤ m.total_time then some (s, rest) else some (m, s :: rest')

/-- Best-times update of `DijkstraRouter.run`: record the settled state
when it has taken at least one flight, passes the circuity check, and
improves on any existing entry. -/
def recordBest (env : RouterEnv) (s : PathState) (best : List (String × AirportResult)) :
    List (String × AirportResult) :=
  if 0 ≤ s.stops ∧ check_circuity env s.airport s.path then
    match alookup best s.airport with
    | none => aupdate best s.airport (mkResult s)
    | some old =>
      if s.total_time < old.total_time then aupdate best s.airport (mkResult s) else best
  else best

/-- Successor state pushed for a neighbour edge: the first flight turns
the −1 sentinel into 0 stops with no connection cost; later flights add
one stop and the connection penalty. -/
def succState (s : PathState) (nb : String × ℤ) : PathState :=
  { total_time := s.total_time + nb.2 + (if s.stops < 0 then 0 else CONNECTION_TIME + STOP_PENALTY)
    airport := nb.1
    stops := if s.stops < 0 then 0 else s.stops + 1
    path := s.path ++ [nb.1] }

/-- Expansion of `DijkstraRouter.run`: push each neighbour successor
that improves on the visited table (consulted after the current state
was settled, as in the source). -/
def expandState (env : RouterEnv) (s : PathState)
    (visited : List ((String × ℤ) × ℤ)) : List PathState :=
  if MAX_STOPS ≤ s.stops then []
  else
    (get_neighbors env s.airport).filterMap (fun nb =>
      match alookup visited ((succState s nb).airport, (succState s nb).stops) with
      | some t =>
        if (succState s nb).total_time < t then some (succState s nb) else none
      | none => some (succState s nb))

/-- Loop body of `DijkstraRouter.run` for a popped state `s` (with
`rest` the remaining queue): the visited check, the settle, the
best-times record guarded by `stops ≥ 0` and the circuity check, and
the expansion guarded by MAX_STOPS. -/
def stepState (env : RouterEnv) (s : PathState) (rest : List PathState)
    (visited : List ((String × ℤ) × ℤ)) (best : List (String × AirportResult)) :
    RouterState :=
  match alookup visited (s.airport, s.stops) with
  | some t =>
    if t ≤ s.total_time then ⟨rest, visited, best⟩
    else
      ⟨rest ++ expandState env s (aupdate visited (s.airport, s.stops) s.total_time),
       aupdate visited (s.airport, s.stops) s.total_time,
       recordBest env s best⟩
  | none =>
    ⟨rest ++ expandState env s (aupdate visited (s.airport, s.stops) s.total_time),
     aupdate visited (s.airport, s.stops) s.total_time,
     recordBest env s best⟩

/-- The while loop of `DijkstraRouter.run`, with explicit fuel (the
Python loop runs until the queue empties; every invariant below holds
for every fuel value). -/
def runLoop (env : RouterEnv) : ℕ → RouterState → List (String × AirportResult)
  | 0, st => st.best
  | n + 1, st =>
    match popMin st.pq with
    | none => st.best
    | some (s, rest) => runLoop env n (stepState env s rest st.visited st.best)

/-- Seed states of `DijkstraRouter.run`: one per access airport, with
ground time plus origin overhead, the −1 stops sentinel, and the
singleton path. -/
def seedStates (env : RouterEnv) : List PathState :=
  env.origin_airports.map (fun orig =>
    ⟨orig.2 + ORIGIN_OVERHEAD, orig.1, -1, [orig.1]⟩)

/-- `DijkstraRouter.run` (fuel-indexed). -/
def router_run (env : RouterEnv) (fuel : ℕ) : List (String × AirportResult) :=
  runLoop env fuel ⟨seedStates env, [], []⟩

/-- Access-airport codes of the origin specification. -/
def accessCodes (env : RouterEnv) : List String :=
  env.origin_airports.map Prod.fst

/-- Path-shape invariant of every queue state: nonempty path starting
at an access airport, ending at the state's airport, with
`len(path) = stops + 2` (the −1 seed sentinel gives the singleton
path). -/
def PathOK (env : RouterEnv) (s : PathState) : Prop :=
  (∃ h t, s.path = h :: t ∧ h ∈ accessCodes env) ∧
  s.path.getLast? = some s.airport ∧
  (s.path.length : ℤ) = s.stops + 2 ∧ -1 ≤ s.stops

/-- Invariant of every `best_times` entry: shape of the recorded path
plus the facts that at least one flight was taken and the circuity
check passed at record time. -/
def BestOK (env : RouterEnv) (pr : String × AirportResult) : Prop :=
  (∃ h t, pr.2.path = h :: t ∧ h ∈ accessCodes env ∧ pr.2.origin_airport = h) ∧
  pr.2.path.getLast? = some pr.1 ∧
  (pr.2.path.length : ℤ) = pr.2.stops + 2 ∧ 0 ≤ pr.2.stops ∧
  check_circuity env pr.1 pr.2.path = true

theorem popMin_mem : ∀ {l : List PathState} {s : PathState} {rest : List PathState},
    popMin l = some (s, rest) → s ∈ l := by
  intro l
  induction l with
  | nil => intro s rest h; simp [popMin] at h
  | cons x xs ih =>
    intro s rest h
    simp only [popMin] at h
    cases hxs : popMin xs with
    | none =>
      rw [hxs] at h
      dsimp only at h
      obtain ⟨rfl, rfl⟩ := Prod.mk.inj (Option.some.inj h)
      exact List.mem_cons_self _ _
    | some pr =>
      obtain ⟨m, rest'⟩ := pr
      rw [hxs] at h
      dsimp only at h
      split_ifs at h with hle
      · obtain ⟨rfl, rfl⟩ := Prod.mk.inj (Option.some.inj h)
        exact List.mem_cons_self _ _
      · obtain ⟨rfl, rfl⟩ := Prod.mk.inj (Option.some.inj h)
        exact List.mem_cons_of_mem _ (ih hxs)

theorem popMin_rest_mem : ∀ {l : List PathState} {s : PathState} {rest : List PathState},
    popMin l = some (s, rest) → ∀ x ∈ rest, x ∈ l := by
  intro l
  induction l with
  | nil => intro s rest h; simp [popMin] at h
  | cons y xs ih =>
    intro s rest h x hx
    simp only [popMin] at h
    cases hxs : popMin xs with
    | none =>
      rw [hxs] at h
      dsimp only at h
      obtain ⟨rfl, rfl⟩ := Prod.mk.inj (Option.some.inj h)
      simp at hx
    | some pr =>
      obtain ⟨m, rest'⟩ := pr
      rw [hxs] at h
      dsimp only at h
      split_ifs at h with hle
      · obtain ⟨rfl, rfl⟩ := Prod.mk.inj (Option.some.inj h)
        exact List.mem_cons_of_mem _ hx
      · obtain ⟨rfl, rfl⟩ := Prod.mk.inj (Option.some.inj h)
        rcases List.mem_cons.mp hx with rfl | hx'
        · exact List.mem_cons_self _ _
        · exact List.mem_cons_of_mem _ (ih hxs x hx')

theorem succState_pathOK (env : RouterEnv) (s : PathState) (nb : String × ℤ)
    (hs : PathOK env s) : PathOK env (succState s nb) := by
  obtain ⟨⟨h, t, hpath, hacc⟩, hlast, hlen, hstops⟩ := hs
  refine ⟨⟨h, t ++ [nb.1], by simp [succState, hpath], hacc⟩, ?_, ?_, ?_⟩
  · simp [succState, List.getLast?_concat]
  · simp only [succState, List.length_append, List.length_cons, List.length_nil]
    by_cases hneg : s.stops < 0
    · have : s.stops = -1 := by omega
      simp [if_pos hneg, this]
      omega
    · simp [if_neg hneg]
      omega
  · simp only [succState]
    by_cases hneg : s.stops < 0
    · simp [if_pos hneg]
    · simp [if_neg hneg]
      omega

theorem mem_expandState {env : RouterEnv} {s : PathState}
    {visited : List ((String × ℤ) × ℤ)} {x : PathState}
    (hx : x ∈ expandState env s visited) :
    ∃ nb ∈ get_neighbors env s.airport, x = succState s nb := by
  unfold expandState at hx
  split_ifs at hx with hcap
  · simp at hx
  · rcases List.mem_filterMap.mp hx with ⟨nb, hnb, hmk⟩
    refine ⟨nb, hnb, ?_⟩
    cases halk : alookup visited ((succState s nb).airport, (succState s nb).stops) with
    | some t =>
      rw [halk] at hmk
      dsimp only at hmk
      split_ifs at hmk
      · exact (Option.some.inj hmk).symm
    | none =>
      rw [halk] at hmk
      dsimp only at hmk
      exact (Option.some.inj hmk).symm

theorem recordBest_ok (env : RouterEnv) (s : PathState) (best : List (String × AirportResult))
    (hs : PathOK env s) (hbest : ∀ pr ∈ best, BestOK env pr) :
    ∀ pr ∈ recordBest env s best, BestOK env pr := by
  intro pr hpr
  unfold recordBest at hpr
  split_ifs at hpr with hc
  · obtain ⟨h0, hcirc⟩ := hc
    obtain ⟨⟨h, t, hpath, hacc⟩, hlast, hlen, hstops⟩ := hs
    have hnew : BestOK env (s.airport, mkResult s) := by
      refine ⟨⟨h, t, hpath, hacc, ?_⟩, ?_, ?_, ?_, ?_⟩
      · simp [mkResult, hpath]
      · simpa [mkResult] using hlast
      · simpa [mkResult] using hlen
      · simpa [mkResult] using h0
      · simpa [mkResult] using hcirc
    cases halk : alookup best s.airport with
    | none =>
      rw [halk] at hpr
      dsimp only at hpr
      rcases mem_aupdate hpr with rfl | hold
      · exact hnew
      · exact hbest pr hold
    | some old =>
      rw [halk] at hpr
      dsimp only at hpr
      split_ifs at hpr with himp
      · rcases mem_aupdate hpr with rfl | hold
        · exact hnew
        · exact hbest pr hold
      · exact hbest pr hpr
  · exact hbest pr hpr

theorem stepState_inv (env : RouterEnv) (s : PathState) (rest : List PathState)
    (visited : List ((String × ℤ) × ℤ)) (best : List (String × AirportResult))
    (hs : PathOK env s) (hrest : ∀ x ∈ rest, PathOK env x)
    (hbest : ∀ pr ∈ best, BestOK env pr) :
    (∀ x ∈ (stepState env s rest visited best).pq, PathOK env x) ∧
    (∀ pr ∈ (stepState env s rest visited best).best, BestOK env pr) := by
  have hsettle : ∀ (v' : List ((String × ℤ) × ℤ)),
      (∀ x ∈ rest ++ expandState env s v', PathOK env x) := by
    intro v' x hx
    rcases List.mem_append.mp hx with hx' | hx'
    · exact hrest x hx'
    · rcases mem_expandState hx' with ⟨nb, hnb, rfl⟩
      exact succState_pathOK env s nb hs
  unfold stepState
  cases halk : alookup visited (s.airport, s.stops) with
  | some t =>
    dsimp only
    split_ifs with hle
    · exact ⟨hrest, hbest⟩
    · exact ⟨hsettle _, recordBest_ok env s best hs hbest⟩
  | none =>
    dsimp only
    exact ⟨hsettle _, recordBest_ok env s best hs hbest⟩

theorem runLoop_inv (env : RouterEnv) :
    ∀ (fuel : ℕ) (st : RouterState),
      (∀ x ∈ st.pq, PathOK env x) → (∀ pr ∈ st.best, BestOK env pr) →
      ∀ pr ∈ runLoop env fuel st, BestOK env pr := by
  intro fuel
  induction fuel with
  | zero => intro st hpq hbest; exact hbest
  | succ n ih =>
    intro st hpq hbest
    simp only [runLoop]
    cases hpop : popMin st.pq with
    | none => exact hbest
    | some pr' =>
      obtain ⟨s, rest⟩ := pr'
      have hs : PathOK env s := hpq s (popMin_mem hpop)
      have hrest : ∀ x ∈ rest, PathOK env x := fun x hx => hpq x (popMin_rest_mem hpop x hx)
      have hst := stepState_inv env s rest st.visited st.best hs hrest hbest
      exact ih _ hst.1 hst.2

theorem seeds_pathOK (env : RouterEnv) : ∀ x ∈ seedStates env, PathOK env x := by
  intro x hx
  rcases List.mem_map.mp hx with ⟨orig, horig, rfl⟩
  refine ⟨⟨orig.1, [], rfl, List.mem_map.mpr ⟨orig, horig, rfl⟩⟩, by simp, by simp, by norm_num⟩

theorem router_run_best_ok (env : RouterEnv) (fuel : ℕ) :
    ∀ pr ∈ router_run env fuel, BestOK env pr :=
  runLoop_inv env fuel ⟨seedStates env, [], []⟩ (seeds_pathOK env) (by intro pr h; simp at h)

/-- C4: router path invariant.  Every entry of the best-airport result
has a path starting at an access airport of the origin specification,
ending at its own key, with `stops = len(path) − 2`. -/
theorem C4_router_path_invariant (env : RouterEnv) (fuel : ℕ) (code : String)
    (res : AirportResult) (hmem : (code, res) ∈ router_run env fuel) :
    (∃ h, res.path.head? = some h ∧ h ∈ accessCodes env) ∧
    res.path.getLast? = some code ∧
    res.stops = (res.path.length : ℤ) - 2 := by
  obtain ⟨⟨h, t, hpath, hacc, _⟩, hlast, hlen, h0, hcirc⟩ :=
    router_run_best_ok env fuel (code, res) hmem
  dsimp only at hpath hlast hlen h0
  exact ⟨⟨h, by rw [hpath]; rfl, hacc⟩, hlast, by omega⟩

/-- C10: the seeded pre-departure state is never emitted.  Every entry
of the best-airport result was reached by at least one flight: its
stops count is ≥ 0 and its path has at least two elements. -/
theorem C10_no_seed_results (env : RouterEnv) (fuel : ℕ) (code : String)
    (res : AirportResult) (hmem : (code, res) ∈ router_run env fuel) :
    0 ≤ res.stops ∧ 2 ≤ res.path.length := by
  obtain ⟨⟨h, t, hpath, hacc, _⟩, hlast, hlen, h0, hcirc⟩ :=
    router_run_best_ok env fuel (code, res) hmem
  dsimp only at hpath hlast hlen h0
  exact ⟨h0, by omega⟩

/-- Concrete router instance: one access airport BRS (ground 25), one
destination DDD, a symmetrised single edge of 60 minutes, all
great-circle distances 200 km. -/
def routerEnv4 : RouterEnv :=
  { graph_adj := [("BRS", [("DDD", 60)]), ("DDD", [("BRS", 60)])]
    airports := [("BRS", ⟨0, 0, "GB"⟩), ("DDD", ⟨0, 0, "GB"⟩)]
    origin_coords := (0, 0)
    origin_airports := [("BRS", 25)]
    hav := fun _ _ _ _ => 200 }

/-- Best-airport entry produced by `routerEnv4`
(25 ground + 90 overhead + 60 flight = 175 minutes, direct). -/
def resDDD : AirportResult :=
  { total_time := 175
    stops := 0
    path := ["BRS", "DDD"]
    origin_airport := "BRS" }

theorem router_run_env4_eval : router_run routerEnv4 2 = [("DDD", resDDD)] := by
  norm_num [router_run, runLoop, seedStates, routerEnv4, popMin, stepState, recordBest,
    expandState, succState, get_neighbors, alookup, aupdate, check_circuity,
    calc_path_distance, mkResult, resDDD, MAX_STOPS, CONNECTION_TIME, STOP_PENALTY,
    ORIGIN_OVERHEAD, MIN_FLY_DISTANCE, MAX_CIRCUITY]

/-- C4 witness: the path invariant at a concrete router run. -/
theorem C4_witness :
    ("DDD", resDDD) ∈ router_run routerEnv4 2 ∧
    ((∃ h, resDDD.path.head? = some h ∧ h ∈ accessCodes routerEnv4) ∧
     resDDD.path.getLast? = some "DDD" ∧
     resDDD.stops = (resDDD.path.length : ℤ) - 2) := by
  have hm : ("DDD", resDDD) ∈ router_run routerEnv4 2 := by
    rw [router_run_env4_eval]
    exact List.mem_cons_self _ _
  exact ⟨hm, C4_router_path_invariant routerEnv4 2 "DDD" resDDD hm⟩

/-- C10 witness: no seed entry at a concrete router run. -/
theorem C10_witness :
    ("DDD", resDDD) ∈ router_run routerEnv4 2 ∧
    0 ≤ resDDD.stops ∧ 2 ≤ resDDD.path.length := by
  have hm : ("DDD", resDDD) ∈ router_run routerEnv4 2 := by
    rw [router_run_env4_eval]
    exact List.mem_cons_self _ _
  exact ⟨hm, C10_no_seed_results routerEnv4 2 "DDD" resDDD hm⟩

/-- Every edge endpoint stored in the `edges` dict is in the catalogue. -/
def EdgesClosed (airports : List (String × Airport)) (g : GraphData) : Prop :=
  ∀ pr ∈ g.edges, (alookup airports pr.1.1).isSome ∧ (alookup airports pr.1.2).isSome

/-- Every neighbour stored in the `adjacency` dict is in the catalogue. -/
def AdjClosed (airports : List (String × Airport)) (g : GraphData) : Prop :=
  ∀ pr ∈ g.adjacency, ∀ nb ∈ pr.2, (alookup airports nb.1).isSome

theorem mem_adjAppend {adj : List (String × List (String × ℤ))} {k : String}
    {it : String × ℤ} {pr : String × List (String × ℤ)}
    (h : pr ∈ adjAppend adj k it) :
    pr ∈ adj ∨ pr.2 = [it] ∨ ∃ l, (k, l) ∈ adj ∧ pr.2 = l ++ [it] := by
  unfold adjAppend at h
  cases halk : alookup adj k with
  | none =>
    rw [halk] at h
    rcases List.mem_append.mp h with h' | h'
    · exact Or.inl h'
    · right; left
      have : pr = (k, [it]) := by simpa using h'
      rw [this]
  | some l =>
    rw [halk] at h
    rcases mem_aupdate h with rfl | h'
    · exact Or.inr (Or.inr ⟨l, alookup_mem halk, rfl⟩)
    · exact Or.inl h'

theorem closed_adjAppend {airports : List (String × Airport)}
    {adj : List (String × List (String × ℤ))} {k : String} {it : String × ℤ}
    (hadj : ∀ pr ∈ adj, ∀ nb ∈ pr.2, (alookup airports nb.1).isSome)
    (hit : (alookup airports it.1).isSome) :
    ∀ pr ∈ adjAppend adj k it, ∀ nb ∈ pr.2, (alookup airports nb.1).isSome := by
  intro pr hpr nb hnb
  rcases mem_adjAppend hpr with h' | h' | ⟨l, hl, h'⟩
  · exact hadj pr h' nb hnb
  · rw [h'] at hnb
    have : nb = it := by simpa using hnb
    rw [this]; exact hit
  · rw [h'] at hnb
    rcases List.mem_append.mp hnb with hnb' | hnb'
    · exact hadj (k, l) hl nb hnb'
    · have : nb = it := by simpa using hnb'
      rw [this]; exact hit

theorem closed_fwdOne (hav : ℚ → ℚ → ℚ → ℚ → ℚ) (airports : List (String × Airport))
    (origin : String) (po : Airport) (hpo : alookup airports origin = some po) :
    ∀ (ds : List String) (g : GraphData),
      EdgesClosed airports g → AdjClosed airports g →
      EdgesClosed airports (fwdOne hav airports origin po g ds) ∧
      AdjClosed airports (fwdOne hav airports origin po g ds) := by
  intro ds
  induction ds with
  | nil => intro g hE hA; exact ⟨hE, hA⟩
  | cons dest ds ih =>
    intro g hE hA
    simp only [fwdOne]
    cases hdest : alookup airports dest with
    | none => exact ih g hE hA
    | some pd =>
      apply ih
      · intro pr hpr
        rcases mem_aupdate hpr with rfl | hold
        · exact ⟨by simp [hpo], by simp [hdest]⟩
        · exact hE pr hold
      · exact closed_adjAppend hA (by simp [hdest])

theorem closed_fwdPass (hav : ℚ → ℚ → ℚ → ℚ → ℚ) (airports : List (String × Airport)) :
    ∀ (routes : List (String × List String)) (g : GraphData),
      EdgesClosed airports g → AdjClosed airports g →
      EdgesClosed airports (fwdPass hav airports g routes) ∧
      AdjClosed airports (fwdPass hav airports g routes) := by
  intro routes
  induction routes with
  | nil => intro g hE hA; exact ⟨hE, hA⟩
  | cons row rest ih =>
    intro g hE hA
    obtain ⟨origin, dests⟩ := row
    simp only [fwdPass]
    cases horig : alookup airports origin with
    | none => exact ih g hE hA
    | some po =>
      have := closed_fwdOne hav airports origin po horig dests g hE hA
      exact ih _ this.1 this.2

theorem closed_revOne (airports : List (String × Airport)) (origin : String) :
    ∀ (ds : List String) (g : GraphData),
      EdgesClosed airports g → AdjClosed airports g →
      EdgesClosed airports (revOne origin g ds) ∧
      AdjClosed airports (revOne origin g ds) := by
  intro ds
  induction ds with
  | nil => intro g hE hA; exact ⟨hE, hA⟩
  | cons dest ds ih =>
    intro g hE hA
    simp only [revOne]
    cases hrev : alookup g.edges (dest, origin) with
    | some _ => exact ih g hE hA
    | none =>
      cases hfwd : alookup g.edges (origin, dest) with
      | none => exact ih g hE hA
      | some ft =>
        have hends := hE _ (alookup_mem hfwd)
        apply ih
        · intro pr hpr
          rcases mem_aupdate hpr with rfl | hold
          · exact ⟨hends.2, hends.1⟩
          · exact hE pr hold
        · exact closed_adjAppend hA hends.1

theorem closed_revPass (airports : List (String × Airport)) :
    ∀ (routes : List (String × List String)) (g : GraphData),
      EdgesClosed airports g → AdjClosed airports g →
      EdgesClosed airports (revPass g routes) ∧
      AdjClosed airports (revPass g routes) := by
  intro routes
  induction routes with
  | nil => intro g hE hA; exact ⟨hE, hA⟩
  | cons row rest ih =>
    intro g hE hA
    obtain ⟨origin, dests⟩ := row
    simp only [revPass]
    have := closed_revOne airports origin dests g hE hA
    exact ih _ this.1 this.2

theorem buildGraph_adj_closed (hav : ℚ → ℚ → ℚ → ℚ → ℚ)
    (routes : List (String × List String)) (airports : List (String × Airport)) :
    AdjClosed airports (buildGraph hav routes airports) := by
  have h0 : EdgesClosed airports ⟨[], []⟩ := by intro pr hpr; simp at hpr
  have h1 : AdjClosed airports ⟨[], []⟩ := by intro pr hpr; simp at hpr
  have hf := closed_fwdPass hav airports routes _ h0 h1
  exact (closed_revPass airports routes _ hf.1 hf.2).2

/-- Catalogue membership of every queue state that has taken a flight. -/
def StateNode (env : RouterEnv) (s : PathState) : Prop :=
  0 ≤ s.stops → (alookup env.airports s.airport).isSome

/-- Catalogue membership of every best-times key. -/
def BestNode (env : RouterEnv) (pr : String × AirportResult) : Prop :=
  (alookup env.airports pr.1).isSome

/-- Neighbour lists of the router's graph only mention catalogue codes. -/
def NodesClosed (env : RouterEnv) : Prop :=
  ∀ nb ∈ env.graph_adj, ∀ it ∈ nb.2, (alookup env.airports it.1).isSome

theorem succState_node {env : RouterEnv} {s : PathState} {nb : String × ℤ}
    (hcl : NodesClosed env) (hnb : nb ∈ get_neighbors env s.airport) :
    StateNode env (succState s nb) := by
  intro _
  unfold get_neighbors at hnb
  cases halk : alookup env.graph_adj s.airport with
  | none => rw [halk] at hnb; simp at hnb
  | some l =>
    rw [halk] at hnb
    simp only [Option.getD_some] at hnb
    exact hcl _ (alookup_mem halk) nb hnb

theorem recordBest_node (env : RouterEnv) (s : PathState)
    (best : List (String × AirportResult))
    (hs : StateNode env s) (hbest : ∀ pr ∈ best, BestNode env pr) :
    ∀ pr ∈ recordBest env s best, BestNode env pr := by
  intro pr hpr
  unfold recordBest at hpr
  split_ifs at hpr with hc
  · have hnode : BestNode env (s.airport, mkResult s) := hs hc.1
    cases halk : alookup best s.airport with
    | none =>
      rw [halk] at hpr
      dsimp only at hpr
      rcases mem_aupdate hpr with rfl | hold
      · exact hnode
      · exact hbest pr hold
    | some old =>
      rw [halk] at hpr
      dsimp only at hpr
      split_ifs at hpr with himp
      · rcases mem_aupdate hpr with rfl | hold
        · exact hnode
        · exact hbest pr hold
      · exact hbest pr hpr
  · exact hbest pr hpr

theorem stepState_node (env : RouterEnv) (hcl : NodesClosed env) (s : PathState)
    (rest : List PathState) (visited : List ((String × ℤ) × ℤ))
    (best : List (String × AirportResult))
    (hs : StateNode env s) (hrest : ∀ x ∈ rest, StateNode env x)
    (hbest : ∀ pr ∈ best, BestNode env pr) :
    (∀ x ∈ (stepState env s rest visited best).pq, StateNode env x) ∧
    (∀ pr ∈ (stepState env s rest visited best).best, BestNode env pr) := by
  have hsettle : ∀ (v' : List ((String × ℤ) × ℤ)),
      (∀ x ∈ rest ++ expandState env s v', StateNode env x) := by
    intro v' x hx
    rcases List.mem_append.mp hx with hx' | hx'
    · exact hrest x hx'
    · rcases mem_expandState hx' with ⟨nb, hnb, rfl⟩
      exact succState_node hcl hnb
  unfold stepState
  cases halk : alookup visited (s.airport, s.stops) with
  | some t =>
    dsimp only
    split_ifs with hle
    · exact ⟨hrest, hbest⟩
    · exact ⟨hsettle _, recordBest_node env s best hs hbest⟩
  | none =>
    dsimp only
    exact ⟨hsettle _, recordBest_node env s best hs hbest⟩

theorem runLoop_node (env : RouterEnv) (hcl : NodesClosed env) :
    ∀ (fuel : ℕ) (st : RouterState),
      (∀ x ∈ st.pq, StateNode env x) → (∀ pr ∈ st.best, BestNode env pr) →
      ∀ pr ∈ runLoop env fuel st, BestNode env pr := by
  intro fuel
  induction fuel with
  | zero => intro st hpq hbest; exact hbest
  | succ n ih =>
    intro st hpq hbest
    simp only [runLoop]
    cases hpop : popMin st.pq with
    | none => exact hbest
    | some pr' =>
      obtain ⟨s, rest⟩ := pr'
      have hs : StateNode env s := hpq s (popMin_mem hpop)
      have hrest : ∀ x ∈ rest, StateNode env x := fun x hx => hpq x (popMin_rest_mem hpop x hx)
      have hst := stepState_node env hcl s rest st.visited st.best hs hrest hbest
      exact ih _ hst.1 hst.2

/-- Router environment whose graph is built by `_build_graph` from a
route table and the catalogue, as `precompute_origin` does. -/
def routerEnvOf (hav : ℚ → ℚ → ℚ → ℚ → ℚ) (routes : List (String × List String))
    (airports : List (String × Airport)) (coords : ℚ × ℚ)
    (access : List (String × ℤ)) : RouterEnv :=
  { graph_adj := (buildGraph hav routes airports).adjacency
    airports := airports
    origin_coords := coords
    origin_airports := access
    hav := hav }

/-- C5: router admission postcondition.  Every airport recorded in the
best-airport result of a run over a graph built from the catalogue is
itself in the catalogue, lies at least MIN_FLY_DISTANCE (150 km) from
the origin-city coordinates, and the summed great-circle distance of
its recorded flight legs is at most MAX_CIRCUITY (1.8) times the direct
origin-to-airport distance; airports failing either check are never
recorded. -/
theorem C5_router_admission (hav : ℚ → ℚ → ℚ → ℚ → ℚ)
    (routes : List (String × List String)) (airportsL : List (String × Airport))
    (coords : ℚ × ℚ) (access : List (String × ℤ)) (fuel : ℕ)
    (code : String) (res : AirportResult)
    (hmem : (code, res) ∈ router_run (routerEnvOf hav routes airportsL coords access) fuel) :
    ∃ apt : Airport, alookup airportsL code = some apt ∧
      MIN_FLY_DISTANCE ≤ hav coords.1 coords.2 apt.lng apt.lat ∧
      calc_path_distance (routerEnvOf hav routes airportsL coords access) res.path
        ≤ MAX_CIRCUITY * hav coords.1 coords.2 apt.lng apt.lat := by
  have hcl : NodesClosed (routerEnvOf hav routes airportsL coords access) := by
    intro nb hnb it hit
    exact buildGraph_adj_closed hav routes airportsL nb hnb it hit
  have hseeds : ∀ x ∈ seedStates (routerEnvOf hav routes airportsL coords access),
      StateNode (routerEnvOf hav routes airportsL coords access) x := by
    intro x hx
    rcases List.mem_map.mp hx with ⟨orig, horig, rfl⟩
    intro habs
    norm_num at habs
  have hnode : BestNode (routerEnvOf hav routes airportsL coords access) (code, res) :=
    runLoop_node _ hcl fuel ⟨seedStates _, [], []⟩ hseeds
      (by intro pr h; simp at h) (code, res) hmem
  obtain ⟨apt, hapt⟩ := Option.isSome_iff_exists.mp hnode
  have hcirc := (router_run_best_ok _ fuel (code, res) hmem).2.2.2.2
  dsimp only at hcirc hapt
  unfold check_circuity at hcirc
  rw [hapt] at hcirc
  dsimp only at hcirc
  split_ifs at hcirc with h1 h2
  rw [show (routerEnvOf hav routes airportsL coords access).hav = hav from rfl,
      show (routerEnvOf hav routes airportsL coords access).origin_coords = coords from rfl]
    at h1 h2
  rw [show (routerEnvOf hav routes airportsL coords access).airports = airportsL from rfl]
    at hapt
  have hd0 : MIN_FLY_DISTANCE ≤ hav coords.1 coords.2 apt.lng apt.lat := not_lt.mp h1
  have hdpos : (0 : ℚ) < hav coords.1 coords.2 apt.lng apt.lat := by
    have h150 : (0 : ℚ) < MIN_FLY_DISTANCE := by norm_num [MIN_FLY_DISTANCE]
    linarith
  have hnot : ¬ MAX_CIRCUITY <
      calc_path_distance (routerEnvOf hav routes airportsL coords access) res.path
        / hav coords.1 coords.2 apt.lng apt.lat :=
    fun hgt => h2 ⟨hdpos, hgt⟩
  exact ⟨apt, hapt, hd0, (div_le_iff hdpos).mp (not_lt.mp hnot)⟩

/-- Best-airport entry of the concrete built-graph run
(25 ground + 90 overhead + 75 flight = 190 minutes, direct). -/
def resBBB : AirportResult :=
  { total_time := 190
    stops := 0
    path := ["AAA", "BBB"]
    origin_airport := "AAA" }

theorem router_run_env5_eval :
    router_run (routerEnvOf havWit routesWit airportsWit (0, 0) [("AAA", 25)]) 2
      = [("BBB", resBBB)] := by
  norm_num +decide [router_run, runLoop, seedStates, routerEnvOf, popMin, stepState, recordBest,
    expandState, succState, get_neighbors, alookup, aupdate, check_circuity,
    calc_path_distance, mkResult, resBBB, MAX_STOPS, CONNECTION_TIME, STOP_PENALTY,
    ORIGIN_OVERHEAD, MIN_FLY_DISTANCE, MAX_CIRCUITY, buildGraph, fwdPass, fwdOne,
    revPass, revOne, adjAppend, estimate_flight_minutes, pround, havWit, routesWit,
    airportsWit, Int.floor_ofNat]

/-- C5 witness: the admission postcondition at a concrete run over a
graph built from a one-route table. -/
theorem C5_witness :
    ("BBB", resBBB) ∈ router_run (routerEnvOf havWit routesWit airportsWit (0, 0)
        [("AAA", 25)]) 2 ∧
    ∃ apt : Airport, alookup airportsWit "BBB" = some apt ∧
      MIN_FLY_DISTANCE ≤ havWit 0 0 apt.lng apt.lat ∧
      calc_path_distance (routerEnvOf havWit routesWit airportsWit (0, 0) [("AAA", 25)])
          resBBB.path
        ≤ MAX_CIRCUITY * havWit 0 0 apt.lng apt.lat := by
  have hm : ("BBB", resBBB) ∈ router_run (routerEnvOf havWit routesWit airportsWit (0, 0)
      [("AAA", 25)]) 2 := by
    rw [router_run_env5_eval]
    exact List.mem_cons_self _ _
  exact ⟨hm, C5_router_admission havWit routesWit airportsWit (0, 0) [("AAA", 25)] 2
    "BBB" resBBB hm⟩

/-- A list of codes is a chain of flight-graph edges. -/
def legsOK (edges : List ((String × String) × ℤ)) : List String → Bool
  | a :: b :: rest => (alookup edges (a, b)).isSome && legsOK edges (b :: rest)
  | _ => true

/-- Sum of the edge weights along a path. -/
def legSum (edges : List ((String × String) × ℤ)) : List String → ℤ
  | a :: b :: rest => (alookup edges (a, b)).getD 0 + legSum edges (b :: rest)
  | _ => 0

/-- Stops of a route, `len(path) − 2` as everywhere in the router. -/
def routeStops (p : List String) : ℤ :=
  (p.length : ℤ) - 2

/-- Total airside time of a route under the router's cost model:
ground time of the access airport, 90 minutes origin overhead, the
flight legs, and 120 minutes per intermediate stop. -/
def routeCost (env : RouterEnv) (edges : List ((String × String) × ℤ))
    (p : List String) : ℤ :=
  (match p.head? with
   | some h => (alookup env.origin_airports h).getD 0
   | none => 0)
    + ORIGIN_OVERHEAD + legSum edges p
    + ((p.length : ℤ) - 2) * (CONNECTION_TIME + STOP_PENALTY)

/-- An admissible route to destination `d`: at least one flight leg,
starting at an access airport, ending at `d`, running along
flight-graph edges, and passing the router's admission checks
(minimum fly distance and circuity). -/
def AdmissibleRoute (env : RouterEnv) (edges : List ((String × String) × ℤ))
    (d : String) (p : List String) : Prop :=
  2 ≤ p.length ∧ (∃ h, p.head? = some h ∧ h ∈ accessCodes env) ∧
  p.getLast? = some d ∧ legsOK edges p = true ∧ check_circuity env d p = true

/-- Distance oracle of the C6 counterexample: all points on one
meridian, `lat` read as the kilometre position along it, so the
great-circle distance is the absolute position difference (realisable
by latitudes scaled by 1/111.19 degrees per km). -/
def hav6 : ℚ → ℚ → ℚ → ℚ → ℚ := fun _ lat1 _ lat2 => |lat2 - lat1|

/-- Catalogue of the C6 counterexample: the origin city sits at
position 0; BRS at 990 km, HUB at 995 km, DDD at 1000 km, LHR at
2800 km. -/
def airports6 : List (String × Airport) :=
  [("BRS", ⟨990, 0, "GB"⟩), ("LHR", ⟨2800, 0, "GB"⟩),
   ("HUB", ⟨995, 0, "GB"⟩), ("DDD", ⟨1000, 0, "GB"⟩)]

/-- Route table of the C6 counterexample: the only way to DDD with no
stop is the long LHR leg; BRS reaches DDD via HUB with two short
legs. -/
def routes6 : List (String × List String) :=
  [("LHR", ["DDD"]), ("BRS", ["HUB"]), ("HUB", ["DDD"])]

/-- Access airports of the C6 counterexample (bristol-style ground
times: BRS 25 minutes, LHR 110 minutes). -/
def access6 : List (String × ℤ) := [("BRS", 25), ("LHR", 110)]

/-- Router environment of the C6 counterexample. -/
def routerEnv6 : RouterEnv := routerEnvOf hav6 routes6 airports6 (0, 0) access6

/-- Edges of the built C6 graph. -/
def edges6 : List ((String × String) × ℤ) := (buildGraph hav6 routes6 airports6).edges

theorem edges6_eval :
    edges6 = [(("LHR", "DDD"), 179), (("BRS", "HUB"), 31), (("HUB", "DDD"), 31),
              (("DDD", "LHR"), 179), (("HUB", "BRS"), 31), (("DDD", "HUB"), 31)] := by
  norm_num +decide [edges6, buildGraph, fwdPass, fwdOne, revPass, revOne, adjAppend,
    aupdate, alookup, estimate_flight_minutes, pround, hav6, routes6, airports6]

/-- C6 counterexample: in the concrete instance the one-stop route
BRS→HUB→DDD is admissible (cost 297), an admissible zero-stop route to
DDD exists (LHR→DDD, cost 379), and the one-stop route is strictly
cheaper than every admissible zero-stop route — adding a connection
lowered the total airside time below the best route with fewer
stops. -/
theorem C6_counterexample :
    AdmissibleRoute routerEnv6 edges6 "DDD" ["BRS", "HUB", "DDD"] ∧
    routeStops ["BRS", "HUB", "DDD"] = 1 ∧
    AdmissibleRoute routerEnv6 edges6 "DDD" ["LHR", "DDD"] ∧
    routeStops ["LHR", "DDD"] = 0 ∧
    (∀ q, AdmissibleRoute routerEnv6 edges6 "DDD" q → routeStops q ≤ 0 →
      routeCost routerEnv6 edges6 ["BRS", "HUB", "DDD"] < routeCost routerEnv6 edges6 q) := by
  refine ⟨?_, by norm_num [routeStops], ?_, by norm_num [routeStops], ?_⟩
  · refine ⟨by norm_num, ⟨"BRS", rfl, by norm_num [accessCodes, routerEnv6, routerEnvOf,
      access6]⟩, rfl, ?_, ?_⟩
    · rw [edges6_eval]
      decide
    · norm_num +decide [check_circuity, routerEnv6, routerEnvOf, airports6, alookup,
        calc_path_distance, hav6, MIN_FLY_DISTANCE, MAX_CIRCUITY]
  · refine ⟨by norm_num, ⟨"LHR", rfl, by norm_num [accessCodes, routerEnv6, routerEnvOf,
      access6]⟩, rfl, ?_, ?_⟩
    · rw [edges6_eval]
      decide
    · norm_num +decide [check_circuity, routerEnv6, routerEnvOf, airports6, alookup,
        calc_path_distance, hav6, MIN_FLY_DISTANCE, MAX_CIRCUITY]
  · intro q hq hle
    obtain ⟨hlen, ⟨h, hhead, hacc⟩, hlast, hlegs, hcirc⟩ := hq
    have hlen2 : q.length = 2 := by
      simp only [routeStops] at hle
      omega
    obtain ⟨x, y, rfl⟩ := List.length_eq_two.mp hlen2
    have hy : y = "DDD" := by simpa using hlast
    subst hy
    replace hacc : x ∈ accessCodes routerEnv6 := by
      have hxh : h = x := by simpa using hhead.symm
      rwa [hxh] at hacc
    have hx : x = "BRS" ∨ x = "LHR" := by
      simpa [accessCodes, routerEnv6, routerEnvOf, access6] using hacc
    rcases hx with rfl | rfl
    · exfalso
      rw [edges6_eval] at hlegs
      exact absurd hlegs (by decide)
    · rw [edges6_eval]
      norm_num +decide [routeCost, legSum, alookup, routerEnv6, routerEnvOf, access6,
        ORIGIN_OVERHEAD, CONNECTION_TIME, STOP_PENALTY]

/-- C6 (amended): splitting a flight leg at an extra intermediate stop
never lowers the total.  For any leg distances obeying the spherical
triangle inequality, the direct flight-time estimate is at most the two
split estimates plus the per-connection penalty of
CONNECTION_TIME + STOP_PENALTY = 120 minutes, so inserting a connection
into a route never lowers its total under the router's cost model. -/
theorem C6_split_leg_no_gain (d1 d2 d3 : ℚ) (h1 : 0 ≤ d1) (h2 : 0 ≤ d2) (h3 : 0 ≤ d3)
    (htri : d3 ≤ d1 + d2) :
    estimate_flight_minutes d3 ≤
      estimate_flight_minutes d1 + estimate_flight_minutes d2
        + (CONNECTION_TIME + STOP_PENALTY) := by
  have lb1 := flight_lb d1 h1
  have lb2 := flight_lb d2 h2
  have ub3 := flight_ub d3 h3
  have hq : (estimate_flight_minutes d3 : ℚ) ≤
      ((estimate_flight_minutes d1 + estimate_flight_minutes d2 + (90 + 30) : ℤ) : ℚ) := by
    push_cast
    linarith
  have hz : estimate_flight_minutes d3 ≤
      estimate_flight_minutes d1 + estimate_flight_minutes d2 + (90 + 30) := by
    exact_mod_cast hq
  simpa [CONNECTION_TIME, STOP_PENALTY] using hz

/-- C6 witness: the amended no-gain bound at concrete distances
(600 km split into 300 + 300). -/
theorem C6_witness :
    (0 : ℚ) ≤ 300 ∧ (0 : ℚ) ≤ 600 ∧ (600 : ℚ) ≤ 300 + 300 ∧
    estimate_flight_minutes 600 ≤
      estimate_flight_minutes 300 + estimate_flight_minutes 300
        + (CONNECTION_TIME + STOP_PENALTY) :=
  ⟨by norm_num, by norm_num, by norm_num,
   C6_split_leg_no_gain 300 300 600 (by norm_num) (by norm_num) (by norm_num) (by norm_num)⟩
